import Mathlib

/-!
# Tegola: the MVT layer model (`mvt/layer.go`) and the line primitives (`maths/line.go`)

A shallow embedding of `mvt/layer.go`: the dynamically typed attribute values
and their wire encoding (`vectorTileValue`), the `Layer` with its feature
list (`AddFeatures`, `RemoveFeature`, `Features`) and the wire-layer builder
(`VTileLayer`); and of `maths/line.go`: the methods of `Line`. The properties
proved about them follow the definitions.

Conventions of the embedding.
* A Go pointer that may be nil is an `Option`.
* A Go slice is a `List`; a nil slice and an empty slice are both `[]`.
* Methods with a pointer receiver that write to the receiver return the new
  receiver next to their Go results.
* Fixed-width integers are `Int`/`Nat` carried with their range; conversions
  between widths are written out with an explicit `%`.
-/

namespace Tegola

/-! ## Go scalars -/

/-- Go `int8`: an integer in `[-2^7, 2^7)`. -/
abbrev GoInt8 := {v : Int // -2 ^ 7 ≤ v ∧ v < 2 ^ 7}
/-- Go `int16`: an integer in `[-2^15, 2^15)`. -/
abbrev GoInt16 := {v : Int // -2 ^ 15 ≤ v ∧ v < 2 ^ 15}
/-- Go `int32`: an integer in `[-2^31, 2^31)`. -/
abbrev GoInt32 := {v : Int // -2 ^ 31 ≤ v ∧ v < 2 ^ 31}
/-- Go `int64`: an integer in `[-2^63, 2^63)`. -/
abbrev GoInt64 := {v : Int // -2 ^ 63 ≤ v ∧ v < 2 ^ 63}
/-- Go `uint8`: a natural number below `2^8`. -/
abbrev GoUint8 := {v : Nat // v < 2 ^ 8}
/-- Go `uint16`: a natural number below `2^16`. -/
abbrev GoUint16 := {v : Nat // v < 2 ^ 16}
/-- Go `uint32`: a natural number below `2^32`. -/
abbrev GoUint32 := {v : Nat // v < 2 ^ 32}
/-- Go `uint64`: a natural number below `2^64`. -/
abbrev GoUint64 := {v : Nat // v < 2 ^ 64}

/-- The Go conversion `int64(x)` of an integer value: two's complement
wrap-around into `[-2^63, 2^63)`. -/
def int64 (x : Int) : Int := (x + 2 ^ 63) % 2 ^ 64 - 2 ^ 63

/-- The Go conversion `uint(x)` on a 64-bit platform: reduction modulo `2^64`. -/
def uint (x : Int) : Nat := (x % 2 ^ 64).toNat

/-- The Go conversion `uint32(x)` of an integer: reduction modulo `2^32`. -/
def uint32 (x : Int) : Nat := (x % 2 ^ 32).toNat

/-- A non-nil Go `interface{}` holding an attribute value, by dynamic type, in
the order `vectorTileValue` switches on it. These are the values on which the
library calls of `vectorTileValue` return; the nil interface and the values on
which `String()` or `binary.Write` panics are the other cases of
`GoInterface`.

* `stringer id str` is a value of any non-string type that implements
  `fmt.Stringer` and whose `String()` method returns; `str` is what it
  returns and `id` tells apart two such values with the same text.
* `float32`/`float64` carry the IEEE-754 bit pattern; `layer.go` does no
  arithmetic on them.
* `other id encoded` is a non-nil value of any other dynamic type (plain
  `int`, `uint`, a struct, ...) on which `binary.Write` returns; `encoded` is
  what `binary.Write` in big-endian order produces for it, `none` when
  `binary.Write` returns an error. -/
inductive GoValue where
  | string (t : String)
  | stringer (id : Nat) (str : String)
  | bool (t : Bool)
  | int8 (t : GoInt8)
  | int16 (t : GoInt16)
  | int32 (t : GoInt32)
  | int64 (t : GoInt64)
  | uint8 (t : GoUint8)
  | uint16 (t : GoUint16)
  | uint32 (t : GoUint32)
  | uint64 (t : GoUint64)
  | float32 (bits : Nat)
  | float64 (bits : Nat)
  | other (id : Nat) (encoded : Option (List Nat))
  deriving DecidableEq

/-- A Go `error` value. `Canceled` and `DeadlineExceeded` are the two
sentinel values of package `context`; every other error, among them the ones
`fmt.Errorf` makes, is an `errorString` with its message. Go compares errors
by identity, so an `errorString` never equals a sentinel, whatever its text. -/
inductive GoError where
  | Canceled
  | DeadlineExceeded
  | errorString (msg : String)
  deriving DecidableEq

/-- The `Error()` method. -/
def GoError.Error : GoError → String
  | .Canceled => "context canceled"
  | .DeadlineExceeded => "context deadline exceeded"
  | .errorString msg => msg

/-- The call `fmt.Errorf("error getting VTileFeature: %v", err)`: a new error
whose message is the fixed text followed by `err.Error()`. -/
def errorfGettingVTileFeature (err : GoError) : GoError :=
  .errorString ("error getting VTileFeature: " ++ err.Error)

/-! ## Types declared outside `layer.go` -/

/-- The struct `vectorTile.Tile_Value`: one optional field per wire kind and
the bytes of `XXX_unrecognized`. -/
structure Tile_Value where
  StringValue : Option String := none
  FloatValue : Option Nat := none
  DoubleValue : Option Nat := none
  IntValue : Option Int := none
  UintValue : Option Nat := none
  SintValue : Option Int := none
  BoolValue : Option Bool := none
  XXX_unrecognized : List Nat := []
  deriving DecidableEq

/-- The struct `vectorTile.Tile_Feature`, which `layer.go` only passes on. -/
structure Tile_Feature where
  Id : Option Nat
  Tags : List Nat
  GeomType : Nat
  Geometry : List Nat
  deriving DecidableEq

/-- The struct `vectorTile.Tile_Layer`. -/
structure Tile_Layer where
  Version : Option Nat
  Name : Option String
  Features : List Tile_Feature
  Keys : List String
  Values : List Tile_Value
  Extent : Option Nat
  deriving DecidableEq

/-- The struct `mvt.Feature`: an optional `uint64` ID, the attribute mapping
and the geometry. `layer.go` never looks into the geometry, which is a plain
handle here. -/
structure Feature where
  ID : Option Nat
  Tags : List (String × GoValue)
  Geometry : Nat
  deriving DecidableEq

/-- Modelled from the spec: the tile descriptor `tegola.Tile`, declared
outside `src/`, "exposing an integer zoom level and an integer extent". `Z` is
a Go `uint`, which `layer.go` compares with `MaxSimplificationZoom`. -/
structure Tile where
  Z : Nat
  X : Nat
  Y : Nat
  Extent : Int
  deriving DecidableEq

/-! ## The layer -/

/-- The struct `Layer`. -/
structure Layer where
  /-- The name of the layer. -/
  Name : String
  /-- The set of features. -/
  features : List Feature
  /-- Tile extent, a pointer in Go; nil stands for the default 4096. -/
  extent : Option Int
  /-- Turns off simplification for this layer. -/
  DontSimplify : Bool
  /-- The zoom level at which simplification is turned off (a Go `uint`). -/
  MaxSimplificationZoom : Nat
  deriving DecidableEq

/-- The method `Version`. -/
def Layer.Version (_l : Layer) : Int := 2

/-- The method `Extent`, on a non-nil receiver. -/
def Layer.Extent (l : Layer) : Int :=
  match l.extent with
  | none => 4096
  | some e => e

/-- The method `SetExtent`, on a non-nil receiver. -/
def Layer.SetExtent (l : Layer) (e : Int) : Layer :=
  { l with extent := some e }

/-- The method `Features`: a copy of the feature slice. -/
def Layer.Features (l : Layer) : List Feature :=
  match l.features with
  | [] => []
  | fs => [] ++ fs

/-- The inner loop of `AddFeatures`: does a feature of `cfs` with a non-nil
ID carry the ID `id`? Features with a nil ID are passed over. -/
def hasFeatureID (id : Nat) : List Feature → Bool
  | [] => false
  | cf :: rest =>
    match cf.ID with
    | none => hasFeatureID id rest
    | some cid => if cid = id then true else hasFeatureID id rest

/-- The loop `FEATURES_LOOP` of `AddFeatures` over the arguments still to
come, with the values of `l.features` and `skipped` so far. -/
def addFeaturesLoop : List Feature → List Feature → Bool → List Feature × Bool
  | [], cur, skipped => (cur, skipped)
  | f :: rest, cur, skipped =>
    match f.ID with
    | none => addFeaturesLoop rest (cur ++ [f]) skipped
    | some id =>
      if hasFeatureID id cur then addFeaturesLoop rest cur true
      else addFeaturesLoop rest (cur ++ [f]) skipped

/-- The method `AddFeatures`: the layer after the call and `skipped`. -/
def Layer.AddFeatures (l : Layer) (features : List Feature) : Layer × Bool :=
  let b := l.features
  let r := addFeaturesLoop features b false
  ({ l with features := r.1 }, r.2)

/-- The loop `SKIP` of `RemoveFeature`: the local slice `features` it builds
from the features at positions `i, i+1, ...`, leaving out every position
that occurs in `idxs`. -/
def removeFeatureLoop (idxs : List Int) : Nat → List Feature → List Feature → List Feature
  | _, [], features => features
  | i, f :: rest, features =>
    if idxs.any (fun j => decide ((i : Int) = j)) then removeFeatureLoop idxs (i + 1) rest features
    else removeFeatureLoop idxs (i + 1) rest (features ++ [f])

/-- The method `RemoveFeature`. The slice the loop builds is a local variable
that is never stored in the layer, so the layer comes back as it was. -/
def Layer.RemoveFeature (l : Layer) (idxs : List Int) : Layer :=
  let _features := removeFeatureLoop idxs 0 l.features []
  l

/-! ## The attribute value encoder -/

/-- The function `vectorTileValue` on a value on which its library calls
return: a fresh `Tile_Value` with the field the type switch selects for the
dynamic type of `i`. -/
def vectorTileValue (i : GoValue) : Tile_Value :=
  match i with
  | .string t => { StringValue := some t }
  | .stringer _ str => { StringValue := some str }
  | .bool t => { BoolValue := some t }
  | .int8 t => { SintValue := some (int64 t.val) }
  | .int16 t => { SintValue := some (int64 t.val) }
  | .int32 t => { SintValue := some (int64 t.val) }
  | .int64 t => { IntValue := some t.val }
  | .uint8 t => { SintValue := some (int64 (t.val : Int)) }
  | .uint16 t => { SintValue := some (int64 (t.val : Int)) }
  | .uint32 t => { SintValue := some (int64 (t.val : Int)) }
  | .uint64 t => { UintValue := some t.val }
  | .float32 t => { FloatValue := some t }
  | .float64 t => { DoubleValue := some t }
  | .other _ encoded =>
    match encoded with
    | some bytes => { XXX_unrecognized := bytes }
    | none => {}

/-- Any Go `interface{}` value that `vectorTileValue` can be called with.

* `nil` is the nil interface value.
* `value v` is a value on which the library calls of `vectorTileValue` return.
* `stringerPanics id` is a non-string value that implements `fmt.Stringer`
  and whose `String()` panics, such as a nil pointer whose `String` method has
  a value receiver.
* `writePanics id` is a value of no supported kind on which `binary.Write`
  panics, such as a typed nil pointer. -/
inductive GoInterface where
  | nil
  | value (v : GoValue)
  | stringerPanics (id : Nat)
  | writePanics (id : Nat)
  deriving DecidableEq

/-- A call of `vectorTileValue` on any `interface{}` value: the `Tile_Value`
it returns, `none` when the call panics. The nil interface matches no case of
the type switch and reaches `binary.Write` in the default branch, which
panics on it; a `Stringer` whose `String()` panics does so in the
`fmt.Stringer` case; `binary.Write` panicking does so in the default
branch. -/
def vectorTileValueCall (i : GoInterface) : Option Tile_Value :=
  match i with
  | .nil => none
  | .value v => some (vectorTileValue v)
  | .stringerPanics _ => none
  | .writePanics _ => none

/-- How many of the seven typed fields of a `Tile_Value` are set. -/
def Tile_Value.typedFieldCount (tv : Tile_Value) : Nat :=
  tv.StringValue.toList.length + tv.FloatValue.toList.length + tv.DoubleValue.toList.length
    + tv.IntValue.toList.length + tv.UintValue.toList.length + tv.SintValue.toList.length
    + tv.BoolValue.toList.length

/-- The loop of `valMapToVTileValue`, with the slice `vt` built so far. -/
def valMapToVTileValueLoop : List GoValue → List Tile_Value → List Tile_Value
  | [], vt => vt
  | v :: rest, vt => valMapToVTileValueLoop rest (vt ++ [vectorTileValue v])

/-- The function `valMapToVTileValue`. -/
def valMapToVTileValue (valMap : List GoValue) : List Tile_Value :=
  valMapToVTileValueLoop valMap []

/-! ## The wire-layer builder -/

/-- A `context.Context` as `VTileLayer` sees it: `Err i` is what `ctx.Err()`
reports at the check made before the feature at position `i`. -/
structure Context where
  Err : Nat → Option GoError

/-- The declarations of package `mvt` that `layer.go` uses and that lie
outside `layer.go`, taken as parameters: the two package variables, the table
builder `keyvalMapsFromFeatures` with its three results, and the method
`Feature.VTileFeature` with its two results. The extra `Nat` of `VTileFeature`
is the position of the feature in the loop, so that two calls on equal
features at different times may give different results. The value table is a
list of `GoValue`: it is taken to hold no value on which `vectorTileValue`
panics. -/
structure Env where
  simplifyGeometries : Bool
  simplificationMaxZoom : Int
  keyvalMapsFromFeatures : List Feature → List String × List GoValue × Option GoError
  VTileFeature : Feature → Context → Nat → List String → List GoValue → Tile → Bool →
    Option Tile_Feature × Option GoError

/-- One call of `Feature.VTileFeature` made by `VTileLayer`. -/
structure EncoderCall where
  index : Nat
  feature : Feature
  simplify : Bool
  deriving DecidableEq

/-- The statement `if l.MaxSimplificationZoom == 0 { l.MaxSimplificationZoom =
uint(simplificationMaxZoom) }` of the loop body. -/
def Layer.setDefaultMaxZoom (env : Env) (l : Layer) : Layer :=
  if l.MaxSimplificationZoom = 0 then
    { l with MaxSimplificationZoom := uint env.simplificationMaxZoom }
  else l

/-- What the loop of `VTileLayer` has at hand: the receiver, the slice
`features` of encoded features, and the record of the encoder calls made. -/
structure LoopState where
  l : Layer
  features : List Tile_Feature
  calls : List EncoderCall
  deriving DecidableEq

/-- The loop of `VTileLayer` over the features at positions `i, i+1, ...`:
the state it ends in, and the error it returns with, if any. -/
def vtileLayerLoop (env : Env) (ctx : Context) (kmap : List String) (vmap : List GoValue)
    (tile : Tile) : Nat → List Feature → LoopState → LoopState × Option GoError
  | _, [], st => (st, none)
  | i, f :: rest, st =>
    match ctx.Err i with
    | some err => (st, some err)
    | none =>
      let simplify := env.simplifyGeometries && !st.l.DontSimplify
      let l1 := st.l.setDefaultMaxZoom env
      let simplify := simplify && decide (tile.Z < l1.MaxSimplificationZoom)
      let st1 : LoopState := { st with l := l1, calls := st.calls ++ [⟨i, f, simplify⟩] }
      match env.VTileFeature f ctx i kmap vmap tile simplify with
      | (_, some err) =>
        if err = GoError.Canceled then (st1, some err)
        else (st1, some (errorfGettingVTileFeature err))
      | (some vtf, none) =>
        vtileLayerLoop env ctx kmap vmap tile (i + 1) rest
          { st1 with features := st1.features ++ [vtf] }
      | (none, none) => vtileLayerLoop env ctx kmap vmap tile (i + 1) rest st1

/-- The outcome of a call of `VTileLayer`: the receiver after the call, the
encoder calls made, and the two Go results. -/
structure VTileLayerResult where
  l : Layer
  calls : List EncoderCall
  vtl : Option Tile_Layer
  err : Option GoError
  deriving DecidableEq

/-- The method `VTileLayer`. -/
def Layer.VTileLayer (l : Layer) (env : Env) (ctx : Context) (tile : Tile) : VTileLayerResult :=
  match env.keyvalMapsFromFeatures l.features with
  | (_, _, some err) => ⟨l, [], none, some err⟩
  | (kmap, vmap, none) =>
    let valmap := valMapToVTileValue vmap
    match vtileLayerLoop env ctx kmap vmap tile 0 l.features ⟨l, [], []⟩ with
    | (st, some err) => ⟨st.l, st.calls, none, some err⟩
    | (st, none) =>
      let ext := uint32 tile.Extent
      let version := uint32 st.l.Version
      let name := st.l.Name
      ⟨st.l, st.calls,
        some { Version := some version, Name := some name, Features := st.features,
               Keys := kmap, Values := valmap, Extent := some ext },
        none⟩

/-! ## Notions the properties are stated with -/

/-- No two features at different positions carry equal non-nil IDs. -/
def UniqueIDs (fs : List Feature) : Prop :=
  ∀ (i j : Nat) (a b : Feature) (id : Nat), i ≠ j → fs[i]? = some a → fs[j]? = some b →
    a.ID = some id → b.ID ≠ some id

/-- The IDs of two features do not clash: they are not the same non-nil ID. -/
def DistinctIDs (a b : Feature) : Prop :=
  ∀ id : Nat, a.ID = some id → b.ID ≠ some id

/-- A mutating call on a layer. -/
inductive LayerOp where
  | AddFeatures (features : List Feature)
  | RemoveFeature (idxs : List Int)

/-- The layer after one mutating call. -/
def LayerOp.apply (l : Layer) : LayerOp → Layer
  | .AddFeatures features => (l.AddFeatures features).1
  | .RemoveFeature idxs => l.RemoveFeature idxs

/-- The layer after a sequence of mutating calls, first call first. -/
def runOps (l : Layer) (ops : List LayerOp) : Layer :=
  ops.foldl LayerOp.apply l

/-- The zoom bound the loop of `VTileLayer` compares `tile.Z` with: the
layer's `MaxSimplificationZoom`, or `uint(simplificationMaxZoom)` in place of
zero. -/
def effectiveMaxSimplificationZoom (env : Env) (l : Layer) : Nat :=
  if l.MaxSimplificationZoom = 0 then uint env.simplificationMaxZoom
  else l.MaxSimplificationZoom

/-- The simplify flag of a call of `VTileLayer`. -/
def simplifyFlag (env : Env) (l : Layer) (tile : Tile) : Bool :=
  env.simplifyGeometries && !l.DontSimplify &&
    decide (tile.Z < effectiveMaxSimplificationZoom env l)

/-- The number held by a value of one of the six narrow integer kinds
(`int8`, `int16`, `int32`, `uint8`, `uint16`, `uint32`). -/
def GoValue.narrowInt? : GoValue → Option Int
  | .int8 t => some t.val
  | .int16 t => some t.val
  | .int32 t => some t.val
  | .uint8 t => some (t.val : Int)
  | .uint16 t => some (t.val : Int)
  | .uint32 t => some (t.val : Int)
  | _ => none

/-- The text of a string or of a `fmt.Stringer`. -/
def GoValue.text? : GoValue → Option String
  | .string t => some t
  | .stringer _ str => some str
  | _ => none

/-- The fallback bytes of a value of no supported kind: what `binary.Write`
produced, nothing when it failed. -/
def GoValue.fallbackBytes? : GoValue → Option (List Nat)
  | .other _ encoded => some (encoded.getD [])
  | _ => none

/-- Modelled from the spec: the `AttributeValue` of the data model, "a closed
variant over {string, boolean, signed-8/16/32/64, unsigned-8/16/32/64,
float32, float64, opaque-bytes-fallback}". -/
inductive AttributeValue where
  | string (t : String)
  | boolean (t : Bool)
  | int8 (t : GoInt8)
  | int16 (t : GoInt16)
  | int32 (t : GoInt32)
  | int64 (t : GoInt64)
  | uint8 (t : GoUint8)
  | uint16 (t : GoUint16)
  | uint32 (t : GoUint32)
  | uint64 (t : GoUint64)
  | float32 (bits : Nat)
  | float64 (bits : Nat)
  | fallbackBytes (bytes : List Nat)
  deriving DecidableEq

/-- Modelled from the spec: the `AttributeValue` a Go value stands for. A
`Stringer` is the string it prints ("string / string-like (stringer)"), and a
value of no supported kind is its fallback bytes, empty when the
serialization fails, so that "opaque-fallback values compare only as equal
byte sequences". -/
def GoValue.toAttributeValue : GoValue → AttributeValue
  | .string t => .string t
  | .stringer _ str => .string str
  | .bool t => .boolean t
  | .int8 t => .int8 t
  | .int16 t => .int16 t
  | .int32 t => .int32 t
  | .int64 t => .int64 t
  | .uint8 t => .uint8 t
  | .uint16 t => .uint16 t
  | .uint32 t => .uint32 t
  | .uint64 t => .uint64 t
  | .float32 bits => .float32 bits
  | .float64 bits => .float64 bits
  | .other _ encoded => .fallbackBytes (encoded.getD [])

/-- Adds `x` at the end of `table` unless the table holds it already. -/
def insertUnique {α : Type} [DecidableEq α] (table : List α) (x : α) : List α :=
  if x ∈ table then table else table ++ [x]

/-- Adds `v` at the end of the value table unless the table holds a value
equal to it as an `AttributeValue`. -/
def insertValue (valMap : List GoValue) (v : GoValue) : List GoValue :=
  if v.toAttributeValue ∈ valMap.map GoValue.toAttributeValue then valMap else valMap ++ [v]

/-- Modelled from the spec: the table builder `keyvalMapsFromFeatures`, whose
code is not in `src/`. It scans all features once and builds "the
deduplicated key table (insertion-ordered unique attribute names) and value
table (insertion-ordered unique attribute values, compared by the
AttributeValue variant's natural equality — opaque-fallback values compare
only as equal byte sequences)"; it reports no error. -/
def keyvalMapsFromFeaturesModel (features : List Feature) :
    List String × List GoValue × Option GoError :=
  let tags := features.flatMap Feature.Tags
  (tags.foldl (fun keyMap kv => insertUnique keyMap kv.1) [],
    tags.foldl (fun valMap kv => insertValue valMap kv.2) [],
    none)

/-! ## Sample inputs -/

/-- A sample encoder: a feature with nil ID encodes to nothing, ID 13 fails
with an error of its own, ID 99 fails with `context.Canceled`, every other
feature encodes to a wire feature that records the simplify flag. -/
def sampleVTileFeature (f : Feature) (_ctx : Context) (_i : Nat) (_kmap : List String)
    (_vmap : List GoValue) (_tile : Tile) (simplify : Bool) :
    Option Tile_Feature × Option GoError :=
  match f.ID with
  | none => (none, none)
  | some id =>
    if id = 13 then (none, some (GoError.errorString "bad geometry"))
    else if id = 99 then (none, some GoError.Canceled)
    else (some ⟨some id, [], if simplify then 1 else 0, []⟩, none)

/-- A sample package state: simplification on, default zoom bound 14, the
table builder of the spec, the sample encoder. -/
def sampleEnv : Env :=
  ⟨true, 14, keyvalMapsFromFeaturesModel, sampleVTileFeature⟩

/-- A sample package state that differs from `sampleEnv` in the default zoom
bound, which is 10. -/
def sampleEnvTen : Env :=
  ⟨true, 10, keyvalMapsFromFeaturesModel, sampleVTileFeature⟩

/-- A sample tile at zoom 12 with extent 4096. -/
def sampleTileTwelve : Tile := ⟨12, 0, 0, 4096⟩

/-- A context that is never cancelled. -/
def background : Context := ⟨fun _ => none⟩

/-- A context found cancelled from the check before position `n` on. -/
def cancelledFrom (n : Nat) : Context :=
  ⟨fun i => if i < n then none else some GoError.Canceled⟩

/-- A sample tile at zoom 10 with extent 4096. -/
def sampleTile : Tile := ⟨10, 0, 0, 4096⟩

/-- A sample layer of three features without attributes, the second one
without ID. -/
def sampleLayer : Layer :=
  ⟨"roads", [⟨some 1, [], 0⟩, ⟨none, [], 1⟩, ⟨some 3, [], 2⟩], none, false, 0⟩

/-- A sample layer whose second feature the sample encoder rejects. -/
def sampleLayerBad : Layer :=
  ⟨"roads", [⟨some 1, [], 0⟩, ⟨some 13, [], 1⟩, ⟨some 3, [], 2⟩], none, false, 0⟩

/-- A sample layer of one feature with two attributes, the `int8` 5 and the
`int16` 5. -/
def sampleLayerNarrow : Layer :=
  ⟨"pois",
    [⟨none, [("lanes", GoValue.int8 ⟨5, by decide⟩), ("floors", GoValue.int16 ⟨5, by decide⟩)], 0⟩],
    none, false, 0⟩

/-- A sample layer of two features that share the attribute names and one
attribute value. -/
def sampleLayerTagged : Layer :=
  ⟨"roads",
    [⟨some 1, [("name", GoValue.string "Main"), ("lanes", GoValue.int8 ⟨2, by decide⟩)], 0⟩,
     ⟨some 2, [("name", GoValue.string "Main"), ("lanes", GoValue.int8 ⟨3, by decide⟩)], 1⟩],
    none, false, 0⟩

/-! ## The extent through a pointer that may be nil -/

/-- A `*Layer`, which may be nil. -/
abbrev LayerRef := Option Layer

/-- The method `Extent` with its receiver check: 4096 when the receiver is nil
or its `extent` is nil. -/
def LayerRef.Extent (l : LayerRef) : Int :=
  match l with
  | none => 4096
  | some v =>
    match v.extent with
    | none => 4096
    | some e => e

/-- The method `SetExtent` with its receiver check, as the caller sees its
receiver afterwards. On a nil receiver the method fills a new `Layer` that
only its local variable `l` points to, and the caller still holds nil. -/
def LayerRef.SetExtent (l : LayerRef) (e : Int) : LayerRef :=
  match l with
  | none =>
    let fresh : Layer := ⟨"", [], none, false, 0⟩
    let _l : Layer := { fresh with extent := some e }
    none
  | some v => some { v with extent := some e }

/-- A call of one of the methods of a layer that may write to it. -/
inductive LayerCall where
  | AddFeatures (features : List Feature)
  | RemoveFeature (idxs : List Int)
  | SetExtent (e : Int)
  | VTileLayer (env : Env) (ctx : Context) (tile : Tile)

/-- The layer after one call. -/
def LayerCall.apply (l : Layer) : LayerCall → Layer
  | .AddFeatures features => (l.AddFeatures features).1
  | .RemoveFeature idxs => l.RemoveFeature idxs
  | .SetExtent e => l.SetExtent e
  | .VTileLayer env ctx tile => (l.VTileLayer env ctx tile).l

/-- The layer after a sequence of calls, first call first. -/
def runCalls (l : Layer) (calls : List LayerCall) : Layer :=
  calls.foldl LayerCall.apply l

/-- The value given to the last `SetExtent` of a sequence of calls, if the
sequence has one. -/
def lastSetExtent : List LayerCall → Option Int
  | [] => none
  | c :: rest =>
    match lastSetExtent rest with
    | some e => some e
    | none =>
      match c with
      | .SetExtent e => some e
      | _ => none

/-! ## Line primitives (`maths/line.go`)

The coordinates are taken in a linearly ordered field `K`, the exact numbers
the Go `float64` values stand for: the rationals compute, and the reals are
an instance. -/

/-- The struct `Pt`: a point with the coordinates `X` and `Y`. -/
structure Pt (K : Type) where
  X : K
  Y : K
  deriving DecidableEq

/-- The type `Line`, an array of two points: `p0` is `l[0]`, `p1` is `l[1]`. -/
structure Line (K : Type) where
  p0 : Pt K
  p1 : Pt K
  deriving DecidableEq

/-- The function `NewLine`. -/
def NewLine {K : Type} (x1 y1 x2 y2 : K) : Line K :=
  ⟨⟨x1, y1⟩, ⟨x2, y2⟩⟩

/-- The method `InBetween`. -/
def Line.InBetween {K : Type} [LinearOrderedField K] (l : Line K) (pt : Pt K) : Bool :=
  let lxgx := if l.p0.X > l.p1.X then (l.p1.X, l.p0.X) else (l.p0.X, l.p1.X)
  let lygy := if l.p0.Y > l.p1.Y then (l.p1.Y, l.p0.Y) else (l.p0.Y, l.p1.Y)
  decide (lxgx.1 ≤ pt.X) && decide (pt.X ≤ lxgx.2) && decide (lygy.1 ≤ pt.Y)
    && decide (pt.Y ≤ lygy.2)

/-- The method `ExInBetween`. -/
def Line.ExInBetween {K : Type} [LinearOrderedField K] (l : Line K) (pt : Pt K) : Bool :=
  let lxgx := if l.p0.X > l.p1.X then (l.p1.X, l.p0.X) else (l.p0.X, l.p1.X)
  let lygy := if l.p0.Y > l.p1.Y then (l.p1.Y, l.p0.Y) else (l.p0.Y, l.p1.Y)
  let goodx := decide (lxgx.1 < pt.X) && decide (pt.X < lxgx.2)
  let goody := decide (lygy.1 < pt.Y) && decide (pt.Y < lygy.2)
  let goodx := if lxgx.2 - lxgx.1 = 0 then true else goodx
  let goody := if lygy.2 - lygy.1 = 0 then true else goody
  goodx && goody

/-- The method `IsVertical`. -/
def Line.IsVertical {K : Type} [LinearOrderedField K] (l : Line K) : Bool :=
  decide (l.p0.X = l.p1.X)

/-- The method `IsHorizontal`. -/
def Line.IsHorizontal {K : Type} [LinearOrderedField K] (l : Line K) : Bool :=
  decide (l.p0.Y = l.p1.Y)

/-- The method `Clamp`. -/
def Line.Clamp {K : Type} [LinearOrderedField K] (l : Line K) (pt : Pt K) : Pt K :=
  let p := pt
  let lxgx := if l.p0.X > l.p1.X then (l.p1.X, l.p0.X) else (l.p0.X, l.p1.X)
  let lygy := if l.p0.Y > l.p1.Y then (l.p1.Y, l.p0.Y) else (l.p0.Y, l.p1.Y)
  let p := if pt.X < lxgx.1 then { p with X := lxgx.1 } else p
  let p := if pt.X > lxgx.2 then { p with X := lxgx.2 } else p
  let p := if pt.Y < lygy.1 then { p with Y := lygy.1 } else p
  let p := if pt.Y > lygy.2 then { p with Y := lygy.2 } else p
  p

/-- The method `DistanceFromPoint`. The library function `math.Sqrt` is the
parameter `sqrt`; `math.Abs` is the absolute value and `math.Pow(x, 2)` the
square. -/
def Line.DistanceFromPoint {K : Type} [LinearOrderedField K] (sqrt : K → K) (l : Line K)
    (pt : Pt K) : K :=
  let deltaX := l.p1.X - l.p0.X
  let deltaY := l.p1.Y - l.p0.Y
  let denom := |(deltaY * pt.X) - (deltaX * pt.Y) + (l.p1.X * l.p0.Y) - (l.p1.Y * l.p0.X)|
  let num := sqrt (deltaY ^ 2 + deltaX ^ 2)
  if num = 0 then 0 else denom / num

/-- The method `SlopeIntercept`: slope `m`, intercept `b` and `defined`. -/
def Line.SlopeIntercept {K : Type} [LinearOrderedField K] (l : Line K) : K × K × Bool :=
  let dx := l.p1.X - l.p0.X
  let dy := l.p1.Y - l.p0.Y
  if dx = 0 ∨ dy = 0 then (0, l.p0.Y, decide (dx ≠ 0))
  else
    let m := dy / dx
    let b := l.p0.Y - (m * l.p0.X)
    (m, b, true)

/-- The method `DeltaX`. -/
def Line.DeltaX {K : Type} [LinearOrderedField K] (l : Line K) : K := l.p1.X - l.p0.X

/-- The method `DeltaY`. -/
def Line.DeltaY {K : Type} [LinearOrderedField K] (l : Line K) : K := l.p1.Y - l.p0.Y

/-- The method `IsLeft`. -/
def Line.IsLeft {K : Type} [LinearOrderedField K] (l : Line K) (pt : Pt K) : K :=
  (l.DeltaX * (pt.Y - l.p0.Y)) - ((pt.X - l.p0.X) * l.DeltaY)

/-- The 2-D cross product of `p1 - p0` with `pt - p0`. -/
def cross {K : Type} [LinearOrderedField K] (p0 p1 pt : Pt K) : K :=
  (p1.X - p0.X) * (pt.Y - p0.Y) - (p1.Y - p0.Y) * (pt.X - p0.X)

/-- The point `pt` lies on the infinite line through `p0` and `p1`: it is
`p0 + t (p1 - p0)` for some `t`. -/
def OnLine {K : Type} [LinearOrderedField K] (p0 p1 pt : Pt K) : Prop :=
  ∃ t : K, pt.X = p0.X + t * (p1.X - p0.X) ∧ pt.Y = p0.Y + t * (p1.Y - p0.Y)

/-! ## Properties of `AddFeatures` -/

theorem hasFeatureID_iff (id : Nat) (cfs : List Feature) :
    hasFeatureID id cfs = true ↔ ∃ cf ∈ cfs, cf.ID = some id := by
  induction cfs with
  | nil => simp [hasFeatureID]
  | cons cf rest ih =>
    unfold hasFeatureID
    cases h : cf.ID with
    | none => simp [ih, h]
    | some cid =>
      by_cases hc : cid = id
      · simp [hc, h]
      · simp [hc, ih, h]

theorem addFeaturesLoop_cons_nil_id {f : Feature} (rest cur : List Feature) (skipped : Bool)
    (h : f.ID = none) :
    addFeaturesLoop (f :: rest) cur skipped = addFeaturesLoop rest (cur ++ [f]) skipped := by
  rw [addFeaturesLoop]; simp [h]

theorem addFeaturesLoop_cons_skip {f : Feature} {id : Nat} (rest cur : List Feature)
    (skipped : Bool) (h : f.ID = some id) (hm : hasFeatureID id cur = true) :
    addFeaturesLoop (f :: rest) cur skipped = addFeaturesLoop rest cur true := by
  rw [addFeaturesLoop]; simp [h, hm]

theorem addFeaturesLoop_cons_add {f : Feature} {id : Nat} (rest cur : List Feature)
    (skipped : Bool) (h : f.ID = some id) (hm : ¬ hasFeatureID id cur = true) :
    addFeaturesLoop (f :: rest) cur skipped = addFeaturesLoop rest (cur ++ [f]) skipped := by
  rw [addFeaturesLoop]; simp [h, hm]

theorem addFeaturesLoop_append (fs gs cur : List Feature) (skipped : Bool) :
    addFeaturesLoop (fs ++ gs) cur skipped =
      addFeaturesLoop gs (addFeaturesLoop fs cur skipped).1 (addFeaturesLoop fs cur skipped).2 := by
  induction fs generalizing cur skipped with
  | nil => simp [addFeaturesLoop]
  | cons f rest ih =>
    simp only [List.cons_append]
    cases h : f.ID with
    | none =>
      rw [addFeaturesLoop_cons_nil_id _ _ _ h, addFeaturesLoop_cons_nil_id _ _ _ h, ih]
    | some id =>
      by_cases hm : hasFeatureID id cur = true
      · rw [addFeaturesLoop_cons_skip _ _ _ h hm, addFeaturesLoop_cons_skip _ _ _ h hm, ih]
      · rw [addFeaturesLoop_cons_add _ _ _ h hm, addFeaturesLoop_cons_add _ _ _ h hm, ih]

theorem addFeaturesLoop_keeps_held (fs cur : List Feature) (skipped : Bool) :
    cur <+: (addFeaturesLoop fs cur skipped).1 := by
  induction fs generalizing cur skipped with
  | nil => simp [addFeaturesLoop]
  | cons f rest ih =>
    cases h : f.ID with
    | none =>
      rw [addFeaturesLoop_cons_nil_id _ _ _ h]
      exact (List.prefix_append cur [f]).trans (ih _ _)
    | some id =>
      by_cases hm : hasFeatureID id cur = true
      · rw [addFeaturesLoop_cons_skip _ _ _ h hm]
        exact ih cur true
      · rw [addFeaturesLoop_cons_add _ _ _ h hm]
        exact (List.prefix_append cur [f]).trans (ih _ _)

theorem addFeaturesLoop_length_le (fs cur : List Feature) (skipped : Bool) :
    (addFeaturesLoop fs cur skipped).1.length ≤ cur.length + fs.length := by
  induction fs generalizing cur skipped with
  | nil => simp [addFeaturesLoop]
  | cons f rest ih =>
    cases h : f.ID with
    | none =>
      rw [addFeaturesLoop_cons_nil_id _ _ _ h]
      have := ih (cur ++ [f]) skipped
      simp only [List.length_append, List.length_cons, List.length_nil] at this ⊢
      omega
    | some id =>
      by_cases hm : hasFeatureID id cur = true
      · rw [addFeaturesLoop_cons_skip _ _ _ h hm]
        have := ih cur true
        simp only [List.length_cons]
        omega
      · rw [addFeaturesLoop_cons_add _ _ _ h hm]
        have := ih (cur ++ [f]) skipped
        simp only [List.length_append, List.length_cons, List.length_nil] at this ⊢
        omega

theorem addFeaturesLoop_skipped_iff (fs cur : List Feature) (skipped : Bool) :
    (addFeaturesLoop fs cur skipped).2 = true ↔
      skipped = true ∨ (addFeaturesLoop fs cur skipped).1.length < cur.length + fs.length := by
  induction fs generalizing cur skipped with
  | nil => simp [addFeaturesLoop]
  | cons f rest ih =>
    cases h : f.ID with
    | none =>
      rw [addFeaturesLoop_cons_nil_id _ _ _ h]
      have := ih (cur ++ [f]) skipped
      simp only [List.length_append, List.length_cons, List.length_nil] at this ⊢
      rw [this]
      constructor
      · rintro (h1 | h1)
        · exact Or.inl h1
        · right; omega
      · rintro (h1 | h1)
        · exact Or.inl h1
        · right; omega
    | some id =>
      by_cases hm : hasFeatureID id cur = true
      · rw [addFeaturesLoop_cons_skip _ _ _ h hm]
        have h1 := ih cur true
        have h2 := addFeaturesLoop_length_le rest cur true
        simp only [List.length_cons]
        rw [h1]
        constructor
        · intro _
          right
          omega
        · intro _
          exact Or.inl rfl
      · rw [addFeaturesLoop_cons_add _ _ _ h hm]
        have := ih (cur ++ [f]) skipped
        simp only [List.length_append, List.length_cons, List.length_nil] at this ⊢
        rw [this]
        constructor
        · rintro (h1 | h1)
          · exact Or.inl h1
          · right; omega
        · rintro (h1 | h1)
          · exact Or.inl h1
          · right; omega

/-- C1: `AddFeatures(fs...)` keeps the features held before as a prefix and
handles the arguments left to right. With the layer as it stands after the
arguments `fs`, one more argument `f` is appended when its ID is nil, is
appended when its ID is non-nil and no feature of that layer carries the same
ID, and is skipped (the layer stays, `skipped` becomes true) when some feature
of that layer, held before the call or appended during it, carries the same
ID. `skipped` is true exactly when fewer features were appended than were
given. A layer holding ID 7 still holds one feature with ID 7 after adding
another one with ID 7, and the call returns true; two features with nil ID
are both kept. -/
theorem AddFeatures_contract (l : Layer) (fs : List Feature) (f : Feature) :
    l.features <+: (l.AddFeatures fs).1.features
    ∧ l.AddFeatures [] = (l, false)
    ∧ (f.ID = none →
        l.AddFeatures (fs ++ [f]) =
          ({ (l.AddFeatures fs).1 with features := (l.AddFeatures fs).1.features ++ [f] },
            (l.AddFeatures fs).2))
    ∧ (∀ id, f.ID = some id → (∀ cf ∈ (l.AddFeatures fs).1.features, cf.ID ≠ some id) →
        l.AddFeatures (fs ++ [f]) =
          ({ (l.AddFeatures fs).1 with features := (l.AddFeatures fs).1.features ++ [f] },
            (l.AddFeatures fs).2))
    ∧ (∀ id, f.ID = some id → (∃ cf ∈ (l.AddFeatures fs).1.features, cf.ID = some id) →
        l.AddFeatures (fs ++ [f]) = ((l.AddFeatures fs).1, true))
    ∧ ((l.AddFeatures fs).2 = true ↔
        (l.AddFeatures fs).1.features.length < l.features.length + fs.length)
    ∧ ((({ Name := "roads", features := [⟨some 7, [], 0⟩], extent := none,
            DontSimplify := false, MaxSimplificationZoom := 0 } : Layer).AddFeatures
          [⟨some 7, [], 1⟩]) =
        ({ Name := "roads", features := [⟨some 7, [], 0⟩], extent := none,
           DontSimplify := false, MaxSimplificationZoom := 0 }, true))
    ∧ ((({ Name := "roads", features := [], extent := none,
            DontSimplify := false, MaxSimplificationZoom := 0 } : Layer).AddFeatures
          [⟨none, [], 0⟩, ⟨none, [], 0⟩]).1.features = [⟨none, [], 0⟩, ⟨none, [], 0⟩]) := by
  refine ⟨?_, ?_, ?_, ?_, ?_, ?_, ?_, ?_⟩
  · exact addFeaturesLoop_keeps_held fs l.features false
  · simp [Layer.AddFeatures, addFeaturesLoop]
  · intro h
    simp only [Layer.AddFeatures, addFeaturesLoop_append]
    rw [addFeaturesLoop_cons_nil_id _ _ _ h]
    simp [addFeaturesLoop]
  · intro id h hno
    have hm : ¬ hasFeatureID id (addFeaturesLoop fs l.features false).1 = true := by
      rw [hasFeatureID_iff]
      rintro ⟨cf, hcf, hid⟩
      exact hno cf hcf hid
    simp only [Layer.AddFeatures, addFeaturesLoop_append]
    rw [addFeaturesLoop_cons_add _ _ _ h hm]
    simp [addFeaturesLoop]
  · intro id h hex
    have hm : hasFeatureID id (addFeaturesLoop fs l.features false).1 = true :=
      (hasFeatureID_iff _ _).2 hex
    simp only [Layer.AddFeatures, addFeaturesLoop_append]
    rw [addFeaturesLoop_cons_skip _ _ _ h hm]
    simp [addFeaturesLoop]
  · have := addFeaturesLoop_skipped_iff fs l.features false
    simpa [Layer.AddFeatures] using this
  · rfl
  · rfl

/-! ## Uniqueness of feature IDs -/

theorem DistinctIDs.symm {a b : Feature} (h : DistinctIDs a b) : DistinctIDs b a := by
  intro id hb ha
  exact h id ha hb

theorem uniqueIDs_iff_pairwise (fs : List Feature) :
    UniqueIDs fs ↔ fs.Pairwise DistinctIDs := by
  rw [List.pairwise_iff_getElem]
  constructor
  · intro h i j hi hj hij id ha
    exact h i j fs[i] fs[j] id (Nat.ne_of_lt hij) (List.getElem?_eq_getElem hi)
      (List.getElem?_eq_getElem hj) ha
  · intro h i j a b id hij ha hb
    obtain ⟨hi, rfl⟩ := List.getElem?_eq_some.1 ha
    obtain ⟨hj, rfl⟩ := List.getElem?_eq_some.1 hb
    rcases Nat.lt_or_gt_of_ne hij with hlt | hgt
    · exact h i j hi hj hlt id
    · exact (h j i hj hi hgt).symm id

theorem addFeaturesLoop_pairwise (fs cur : List Feature) (skipped : Bool)
    (h : cur.Pairwise DistinctIDs) :
    (addFeaturesLoop fs cur skipped).1.Pairwise DistinctIDs := by
  induction fs generalizing cur skipped with
  | nil => simpa [addFeaturesLoop] using h
  | cons f rest ih =>
    cases hid : f.ID with
    | none =>
      rw [addFeaturesLoop_cons_nil_id _ _ _ hid]
      apply ih
      rw [List.pairwise_append]
      refine ⟨h, List.pairwise_singleton _ _, ?_⟩
      intro a _ b hb id _ hbid
      rw [List.mem_singleton] at hb
      subst hb
      rw [hid] at hbid
      exact Option.noConfusion hbid
    | some id =>
      by_cases hm : hasFeatureID id cur = true
      · rw [addFeaturesLoop_cons_skip _ _ _ hid hm]
        exact ih cur true h
      · rw [addFeaturesLoop_cons_add _ _ _ hid hm]
        apply ih
        rw [List.pairwise_append]
        refine ⟨h, List.pairwise_singleton _ _, ?_⟩
        intro a ha b hb id2 haid hbid
        rw [List.mem_singleton] at hb
        subst hb
        rw [hid] at hbid
        have : id = id2 := Option.some.inj hbid
        subst this
        exact hm ((hasFeatureID_iff _ _).2 ⟨a, ha, haid⟩)

theorem removeFeatureLoop_acc (idxs : List Int) (i : Nat) (fs acc : List Feature) :
    removeFeatureLoop idxs i fs acc = acc ++ removeFeatureLoop idxs i fs [] := by
  induction fs generalizing i acc with
  | nil => simp [removeFeatureLoop]
  | cons f rest ih =>
    rw [removeFeatureLoop, removeFeatureLoop]
    split
    · exact ih _ _
    · rw [ih (i + 1) (acc ++ [f]), ih (i + 1) ([] ++ [f])]
      simp

theorem removeFeatureLoop_sublist (idxs : List Int) (i : Nat) (fs : List Feature) :
    List.Sublist (removeFeatureLoop idxs i fs []) fs := by
  induction fs generalizing i with
  | nil => simp [removeFeatureLoop]
  | cons f rest ih =>
    rw [removeFeatureLoop]
    split
    · exact (ih _).trans (List.sublist_cons_self f rest)
    · rw [removeFeatureLoop_acc]
      simpa using ih (i + 1)

theorem AddFeatures_uniqueIDs (l : Layer) (fs : List Feature) (h : UniqueIDs l.features) :
    UniqueIDs (l.AddFeatures fs).1.features := by
  rw [uniqueIDs_iff_pairwise] at h ⊢
  exact addFeaturesLoop_pairwise fs l.features false h

theorem LayerOp_apply_uniqueIDs (l : Layer) (op : LayerOp) (h : UniqueIDs l.features) :
    UniqueIDs (op.apply l).features := by
  cases op with
  | AddFeatures features => exact AddFeatures_uniqueIDs l features h
  | RemoveFeature idxs => exact h

theorem runOps_uniqueIDs (l : Layer) (ops : List LayerOp) (h : UniqueIDs l.features) :
    UniqueIDs (runOps l ops).features := by
  induction ops generalizing l with
  | nil => exact h
  | cons op rest ih => exact ih (op.apply l) (LayerOp_apply_uniqueIDs l op h)

/-- C2: uniqueness of the non-nil IDs is an invariant of the layer. A layer
that starts with no features has, after any sequence of `AddFeatures` and
`RemoveFeature` calls, no two features at different positions with equal
non-nil IDs; `AddFeatures` keeps the IDs pairwise distinct whatever its
arguments are, also when they repeat an ID among themselves; `RemoveFeature`
keeps them so, and so does the slice its loop builds. -/
theorem Layer_feature_ids_unique :
    (∀ (l : Layer) (ops : List LayerOp), l.features = [] →
        UniqueIDs (runOps l ops).features)
    ∧ (∀ (l : Layer) (fs : List Feature), UniqueIDs l.features →
        UniqueIDs (l.AddFeatures fs).1.features)
    ∧ (∀ (l : Layer) (idxs : List Int), UniqueIDs l.features →
        UniqueIDs (l.RemoveFeature idxs).features
        ∧ UniqueIDs (removeFeatureLoop idxs 0 l.features []))
    ∧ UniqueIDs ((⟨"roads", [], none, false, 0⟩ : Layer).AddFeatures
        [⟨some 7, [], 0⟩, ⟨none, [], 1⟩, ⟨some 7, [], 2⟩, ⟨none, [], 3⟩]).1.features := by
  refine ⟨?_, ?_, ?_, ?_⟩
  · intro l ops h
    apply runOps_uniqueIDs
    rw [h, uniqueIDs_iff_pairwise]
    exact List.Pairwise.nil
  · exact AddFeatures_uniqueIDs
  · intro l idxs h
    refine ⟨h, ?_⟩
    rw [uniqueIDs_iff_pairwise] at h ⊢
    exact h.sublist (removeFeatureLoop_sublist idxs 0 l.features)
  · apply AddFeatures_uniqueIDs
    rw [uniqueIDs_iff_pairwise]
    exact List.Pairwise.nil

/-! ## `RemoveFeature` and `Features` -/

theorem Features_eq (l : Layer) : l.Features = l.features := by
  unfold Layer.Features
  split <;> simp_all

/-- C3: `RemoveFeature` has no effect on the layer. For every layer and every
index list the layer after the call is the layer before it; on a layer
holding two features, `RemoveFeature(0)` leaves `Features()` returning both,
where the contract asks for the second one alone. The slice the loop builds
and drops is the one the contract describes. -/
theorem RemoveFeature_leaves_layer :
    (∀ (l : Layer) (idxs : List Int), l.RemoveFeature idxs = l)
    ∧ ((⟨"roads", [⟨some 1, [], 0⟩, ⟨some 2, [], 1⟩], none, false, 0⟩ : Layer).RemoveFeature
          [0]).Features = [⟨some 1, [], 0⟩, ⟨some 2, [], 1⟩]
    ∧ ((⟨"roads", [⟨some 1, [], 0⟩, ⟨some 2, [], 1⟩], none, false, 0⟩ : Layer).RemoveFeature
          [0]).Features ≠ [⟨some 2, [], 1⟩]
    ∧ removeFeatureLoop [0] 0 [⟨some 1, [], 0⟩, ⟨some 2, [], 1⟩] [] = [⟨some 2, [], 1⟩] := by
  refine ⟨fun _ _ => rfl, ?_, ?_, ?_⟩
  · rfl
  · decide
  · rfl

/-! ## The loop of `VTileLayer` -/

theorem setDefaultMaxZoom_maxZoom (env : Env) (l : Layer) :
    (l.setDefaultMaxZoom env).MaxSimplificationZoom = effectiveMaxSimplificationZoom env l := by
  unfold Layer.setDefaultMaxZoom effectiveMaxSimplificationZoom
  split <;> rfl

theorem setDefaultMaxZoom_frame (env : Env) (l : Layer) :
    (l.setDefaultMaxZoom env).Name = l.Name
    ∧ (l.setDefaultMaxZoom env).features = l.features
    ∧ (l.setDefaultMaxZoom env).extent = l.extent
    ∧ (l.setDefaultMaxZoom env).DontSimplify = l.DontSimplify := by
  unfold Layer.setDefaultMaxZoom
  split <;> simp

theorem setDefaultMaxZoom_idem (env : Env) (l : Layer) :
    (l.setDefaultMaxZoom env).setDefaultMaxZoom env = l.setDefaultMaxZoom env := by
  unfold Layer.setDefaultMaxZoom
  by_cases h : l.MaxSimplificationZoom = 0
  · by_cases h2 : uint env.simplificationMaxZoom = 0
    · simp [h, h2]
    · simp [h, h2]
  · simp [h]

theorem effectiveMax_setDefaultMaxZoom (env : Env) (l : Layer) :
    effectiveMaxSimplificationZoom env (l.setDefaultMaxZoom env) =
      effectiveMaxSimplificationZoom env l := by
  rw [← setDefaultMaxZoom_maxZoom, ← setDefaultMaxZoom_maxZoom, setDefaultMaxZoom_idem]

theorem simplifyFlag_setDefaultMaxZoom (env : Env) (l : Layer) (tile : Tile) :
    simplifyFlag env (l.setDefaultMaxZoom env) tile = simplifyFlag env l tile := by
  unfold simplifyFlag
  rw [effectiveMax_setDefaultMaxZoom, (setDefaultMaxZoom_frame env l).2.2.2]

theorem loopFlag_eq (env : Env) (l : Layer) (tile : Tile) :
    (env.simplifyGeometries && !l.DontSimplify &&
      decide (tile.Z < (l.setDefaultMaxZoom env).MaxSimplificationZoom)) =
    simplifyFlag env l tile := by
  rw [setDefaultMaxZoom_maxZoom]
  rfl

theorem vtileLayerLoop_nil (env : Env) (ctx : Context) (kmap : List String)
    (vmap : List GoValue) (tile : Tile) (i : Nat) (st : LoopState) :
    vtileLayerLoop env ctx kmap vmap tile i [] st = (st, none) := by
  rw [vtileLayerLoop]

theorem vtileLayerLoop_cancelled (env : Env) (ctx : Context) (kmap : List String)
    (vmap : List GoValue) (tile : Tile) (i : Nat) (f : Feature) (rest : List Feature)
    (st : LoopState) (err : GoError) (h : ctx.Err i = some err) :
    vtileLayerLoop env ctx kmap vmap tile i (f :: rest) st = (st, some err) := by
  rw [vtileLayerLoop]
  simp [h]

theorem vtileLayerLoop_encoder_error (env : Env) (ctx : Context) (kmap : List String)
    (vmap : List GoValue) (tile : Tile) (i : Nat) (f : Feature) (rest : List Feature)
    (st : LoopState) (err : GoError) (h : ctx.Err i = none)
    (he : (env.VTileFeature f ctx i kmap vmap tile (simplifyFlag env st.l tile)).2 = some err) :
    vtileLayerLoop env ctx kmap vmap tile i (f :: rest) st =
      (⟨st.l.setDefaultMaxZoom env, st.features,
          st.calls ++ [⟨i, f, simplifyFlag env st.l tile⟩]⟩,
        some (if err = GoError.Canceled then err else errorfGettingVTileFeature err)) := by
  rw [vtileLayerLoop]
  simp only [h, loopFlag_eq]
  rcases hr : env.VTileFeature f ctx i kmap vmap tile (simplifyFlag env st.l tile) with ⟨v, e⟩
  rw [hr] at he
  simp only at he
  subst he
  by_cases hc : err = GoError.Canceled
  · simp [hc]
  · simp [hc]

theorem vtileLayerLoop_encoder_ok (env : Env) (ctx : Context) (kmap : List String)
    (vmap : List GoValue) (tile : Tile) (i : Nat) (f : Feature) (rest : List Feature)
    (st : LoopState) (h : ctx.Err i = none)
    (he : (env.VTileFeature f ctx i kmap vmap tile (simplifyFlag env st.l tile)).2 = none) :
    vtileLayerLoop env ctx kmap vmap tile i (f :: rest) st =
      vtileLayerLoop env ctx kmap vmap tile (i + 1) rest
        ⟨st.l.setDefaultMaxZoom env,
          st.features ++
            (env.VTileFeature f ctx i kmap vmap tile (simplifyFlag env st.l tile)).1.toList,
          st.calls ++ [⟨i, f, simplifyFlag env st.l tile⟩]⟩ := by
  rw [vtileLayerLoop]
  simp only [h, loopFlag_eq]
  rcases hr : env.VTileFeature f ctx i kmap vmap tile (simplifyFlag env st.l tile) with ⟨v, e⟩
  rw [hr] at he
  simp only at he
  subst he
  cases v with
  | none => simp
  | some v => simp

theorem vtileLayerLoop_append (env : Env) (ctx : Context) (kmap : List String)
    (vmap : List GoValue) (tile : Tile) (pre post : List Feature) (i : Nat) (st : LoopState) :
    vtileLayerLoop env ctx kmap vmap tile i (pre ++ post) st =
      match vtileLayerLoop env ctx kmap vmap tile i pre st with
      | (st1, none) => vtileLayerLoop env ctx kmap vmap tile (i + pre.length) post st1
      | (st1, some err) => (st1, some err) := by
  induction pre generalizing i st with
  | nil => simp [vtileLayerLoop_nil]
  | cons f rest ih =>
    rw [List.cons_append]
    cases hc : ctx.Err i with
    | some err =>
      rw [vtileLayerLoop_cancelled _ _ _ _ _ _ _ _ _ err hc,
        vtileLayerLoop_cancelled _ _ _ _ _ _ _ _ _ err hc]
    | none =>
      cases he : (env.VTileFeature f ctx i kmap vmap tile (simplifyFlag env st.l tile)).2 with
      | some err =>
        rw [vtileLayerLoop_encoder_error _ _ _ _ _ _ _ _ _ err hc he,
          vtileLayerLoop_encoder_error _ _ _ _ _ _ _ _ _ err hc he]
      | none =>
        rw [vtileLayerLoop_encoder_ok _ _ _ _ _ _ _ _ _ hc he,
          vtileLayerLoop_encoder_ok _ _ _ _ _ _ _ _ _ hc he, ih]
        simp only [List.length_cons]
        rw [show i + 1 + rest.length = i + (rest.length + 1) by omega]

theorem vtileLayerLoop_all_ok (env : Env) (ctx : Context) (kmap : List String)
    (vmap : List GoValue) (tile : Tile) (fs : List Feature) (i : Nat) (st : LoopState)
    (h : ∀ (j : Nat) (f : Feature), fs[j]? = some f →
      ctx.Err (i + j) = none ∧
      (env.VTileFeature f ctx (i + j) kmap vmap tile (simplifyFlag env st.l tile)).2 = none) :
    vtileLayerLoop env ctx kmap vmap tile i fs st =
      (⟨if fs = [] then st.l else st.l.setDefaultMaxZoom env,
        st.features ++ (fs.enumFrom i).filterMap
          (fun p => (env.VTileFeature p.2 ctx p.1 kmap vmap tile (simplifyFlag env st.l tile)).1),
        st.calls ++ (fs.enumFrom i).map (fun p => ⟨p.1, p.2, simplifyFlag env st.l tile⟩)⟩,
        none) := by
  induction fs generalizing i st with
  | nil => simp [vtileLayerLoop_nil]
  | cons f rest ih =>
    have h0 := h 0 f (by simp)
    rw [Nat.add_zero] at h0
    rw [vtileLayerLoop_encoder_ok _ _ _ _ _ _ _ _ _ h0.1 h0.2, ih]
    · simp only [simplifyFlag_setDefaultMaxZoom, setDefaultMaxZoom_idem, ite_self,
        List.enumFrom_cons, List.map_cons, List.append_assoc, List.singleton_append,
        List.cons_ne_nil, if_false]
      congr 2
      cases hv : (env.VTileFeature f ctx i kmap vmap tile (simplifyFlag env st.l tile)).1 with
      | none => simp [List.filterMap_cons, hv]
      | some v => simp [List.filterMap_cons, hv]
    · intro j g hg
      have := h (j + 1) g (by simpa using hg)
      rw [simplifyFlag_setDefaultMaxZoom]
      rwa [show i + 1 + j = i + (j + 1) by omega]

theorem vtileLayerLoop_err_none (env : Env) (ctx : Context) (kmap : List String)
    (vmap : List GoValue) (tile : Tile) (fs : List Feature) (i : Nat) (st : LoopState)
    (h : (vtileLayerLoop env ctx kmap vmap tile i fs st).2 = none) :
    ∀ (j : Nat) (f : Feature), fs[j]? = some f →
      ctx.Err (i + j) = none ∧
      (env.VTileFeature f ctx (i + j) kmap vmap tile (simplifyFlag env st.l tile)).2 = none := by
  induction fs generalizing i st with
  | nil => intro j f hf; simp at hf
  | cons f rest ih =>
    cases hc : ctx.Err i with
    | some err =>
      rw [vtileLayerLoop_cancelled _ _ _ _ _ _ _ _ _ err hc] at h
      exact Option.noConfusion h
    | none =>
      cases he : (env.VTileFeature f ctx i kmap vmap tile (simplifyFlag env st.l tile)).2 with
      | some err =>
        rw [vtileLayerLoop_encoder_error _ _ _ _ _ _ _ _ _ err hc he] at h
        exact Option.noConfusion h
      | none =>
        rw [vtileLayerLoop_encoder_ok _ _ _ _ _ _ _ _ _ hc he] at h
        have hrest := ih _ _ h
        simp only [simplifyFlag_setDefaultMaxZoom] at hrest
        intro j g hg
        cases j with
        | zero =>
          simp only [List.getElem?_cons_zero, Option.some.injEq] at hg
          subst hg
          exact ⟨hc, he⟩
        | succ j =>
          have := hrest j g (by simpa using hg)
          rwa [show i + 1 + j = i + (j + 1) by omega] at this

theorem vtileLayerLoop_calls (env : Env) (ctx : Context) (kmap : List String)
    (vmap : List GoValue) (tile : Tile) (fs : List Feature) (i : Nat) (st : LoopState) :
    ∃ extra : List EncoderCall,
      (vtileLayerLoop env ctx kmap vmap tile i fs st).1.calls = st.calls ++ extra
      ∧ (vtileLayerLoop env ctx kmap vmap tile i fs st).1.l =
          (if extra = [] then st.l else st.l.setDefaultMaxZoom env)
      ∧ ∀ c ∈ extra, c.simplify = simplifyFlag env st.l tile
          ∧ ∃ j : Nat, fs[j]? = some c.feature ∧ c.index = i + j := by
  induction fs generalizing i st with
  | nil => exact ⟨[], by simp [vtileLayerLoop_nil]⟩
  | cons f rest ih =>
    cases hc : ctx.Err i with
    | some err =>
      rw [vtileLayerLoop_cancelled _ _ _ _ _ _ _ _ _ err hc]
      exact ⟨[], by simp⟩
    | none =>
      cases he : (env.VTileFeature f ctx i kmap vmap tile (simplifyFlag env st.l tile)).2 with
      | some err =>
        rw [vtileLayerLoop_encoder_error _ _ _ _ _ _ _ _ _ err hc he]
        refine ⟨[⟨i, f, simplifyFlag env st.l tile⟩], rfl, by simp, ?_⟩
        intro c hcm
        rw [List.mem_singleton] at hcm
        subst hcm
        exact ⟨rfl, 0, by simp⟩
      | none =>
        rw [vtileLayerLoop_encoder_ok _ _ _ _ _ _ _ _ _ hc he]
        obtain ⟨extra, h1, h2, h3⟩ := ih (i + 1)
          ⟨st.l.setDefaultMaxZoom env,
            st.features ++
              (env.VTileFeature f ctx i kmap vmap tile (simplifyFlag env st.l tile)).1.toList,
            st.calls ++ [⟨i, f, simplifyFlag env st.l tile⟩]⟩
        refine ⟨⟨i, f, simplifyFlag env st.l tile⟩ :: extra, ?_, ?_, ?_⟩
        · rw [h1]; simp
        · rw [h2]
          simp only [setDefaultMaxZoom_idem, ite_self, List.cons_ne_nil, if_false]
        · intro c hcm
          rcases List.mem_cons.1 hcm with rfl | hcm
          · exact ⟨rfl, 0, by simp⟩
          · obtain ⟨hs, j, hj, hidx⟩ := h3 c hcm
            refine ⟨?_, j + 1, by simpa using hj, by omega⟩
            rw [hs, simplifyFlag_setDefaultMaxZoom]

theorem valMapToVTileValueLoop_eq (valMap : List GoValue) (vt : List Tile_Value) :
    valMapToVTileValueLoop valMap vt = vt ++ valMap.map vectorTileValue := by
  induction valMap generalizing vt with
  | nil => simp [valMapToVTileValueLoop]
  | cons v rest ih => simp [valMapToVTileValueLoop, ih]

theorem valMapToVTileValue_eq_map (valMap : List GoValue) :
    valMapToVTileValue valMap = valMap.map vectorTileValue := by
  simp [valMapToVTileValue, valMapToVTileValueLoop_eq]

theorem VTileLayer_of_keyval_error (l : Layer) (env : Env) (ctx : Context) (tile : Tile)
    (kmap : List String) (vmap : List GoValue) (err : GoError)
    (hkv : env.keyvalMapsFromFeatures l.features = (kmap, vmap, some err)) :
    l.VTileLayer env ctx tile = ⟨l, [], none, some err⟩ := by
  unfold Layer.VTileLayer
  rw [hkv]

theorem VTileLayer_of_loop_error (l : Layer) (env : Env) (ctx : Context) (tile : Tile)
    (kmap : List String) (vmap : List GoValue) (st : LoopState) (err : GoError)
    (hkv : env.keyvalMapsFromFeatures l.features = (kmap, vmap, none))
    (hloop : vtileLayerLoop env ctx kmap vmap tile 0 l.features ⟨l, [], []⟩ = (st, some err)) :
    l.VTileLayer env ctx tile = ⟨st.l, st.calls, none, some err⟩ := by
  unfold Layer.VTileLayer
  rw [hkv]
  simp only
  rw [hloop]

theorem VTileLayer_of_loop_ok (l : Layer) (env : Env) (ctx : Context) (tile : Tile)
    (kmap : List String) (vmap : List GoValue) (st : LoopState)
    (hkv : env.keyvalMapsFromFeatures l.features = (kmap, vmap, none))
    (hloop : vtileLayerLoop env ctx kmap vmap tile 0 l.features ⟨l, [], []⟩ = (st, none)) :
    l.VTileLayer env ctx tile =
      ⟨st.l, st.calls,
        some { Version := some 2, Name := some st.l.Name, Features := st.features,
               Keys := kmap, Values := vmap.map vectorTileValue,
               Extent := some (uint32 tile.Extent) },
        none⟩ := by
  unfold Layer.VTileLayer
  rw [hkv]
  simp only
  rw [hloop]
  simp only [valMapToVTileValue_eq_map]
  rfl

theorem VTileLayer_calls (l : Layer) (env : Env) (ctx : Context) (tile : Tile) :
    (l.VTileLayer env ctx tile).l =
        (if (l.VTileLayer env ctx tile).calls = [] then l else l.setDefaultMaxZoom env)
    ∧ ∀ c ∈ (l.VTileLayer env ctx tile).calls, c.simplify = simplifyFlag env l tile
        ∧ l.features[c.index]? = some c.feature := by
  rcases hkv : env.keyvalMapsFromFeatures l.features with ⟨kmap, vmap, e⟩
  cases e with
  | some err =>
    rw [VTileLayer_of_keyval_error l env ctx tile kmap vmap err hkv]
    simp
  | none =>
    obtain ⟨extra, h1, h2, h3⟩ :=
      vtileLayerLoop_calls env ctx kmap vmap tile l.features 0 ⟨l, [], []⟩
    simp only [List.nil_append] at h1
    have key : ∀ c ∈ extra, c.simplify = simplifyFlag env l tile
        ∧ l.features[c.index]? = some c.feature := by
      intro c hc
      obtain ⟨hs, j, hj, hidx⟩ := h3 c hc
      refine ⟨hs, ?_⟩
      rw [hidx, Nat.zero_add]
      exact hj
    rcases hr : vtileLayerLoop env ctx kmap vmap tile 0 l.features ⟨l, [], []⟩ with ⟨st, e⟩
    rw [hr] at h1 h2
    simp only at h1 h2
    cases e with
    | some err =>
      rw [VTileLayer_of_loop_error l env ctx tile kmap vmap st err hkv hr]
      simp only [h1, h2]
      exact ⟨trivial, key⟩
    | none =>
      rw [VTileLayer_of_loop_ok l env ctx tile kmap vmap st hkv hr]
      simp only [h1, h2]
      exact ⟨trivial, key⟩

/-! ## The contract of `VTileLayer` -/

theorem enumFrom_map_feature (fs : List Feature) (i : Nat) (b : Bool) :
    ((fs.enumFrom i).map (fun p => (⟨p.1, p.2, b⟩ : EncoderCall))).map EncoderCall.feature = fs := by
  induction fs generalizing i with
  | nil => rfl
  | cons f rest ih => simp [List.enumFrom_cons, ih]

theorem enumFrom_map_index (fs : List Feature) (i : Nat) (b : Bool) :
    ((fs.enumFrom i).map (fun p => (⟨p.1, p.2, b⟩ : EncoderCall))).map EncoderCall.index =
      List.range' i fs.length := by
  induction fs generalizing i with
  | nil => rfl
  | cons f rest ih => simp [List.enumFrom_cons, ih, List.range'_succ]

/-- C4: when the features before `f` pass their cancellation check and are
encoded without error, and the check made before `f` finds the context with
the error `err`, `VTileLayer` returns a nil layer together with `err` itself,
and the encoder has been called for the features before `f` and for no
other. -/
theorem VTileLayer_context_cancelled (l : Layer) (env : Env) (ctx : Context) (tile : Tile)
    (kmap : List String) (vmap : List GoValue) (pre post : List Feature) (f : Feature)
    (err : GoError)
    (hkv : env.keyvalMapsFromFeatures l.features = (kmap, vmap, none))
    (hfs : l.features = pre ++ f :: post)
    (hpre : ∀ (j : Nat) (g : Feature), pre[j]? = some g →
      ctx.Err j = none ∧
      (env.VTileFeature g ctx j kmap vmap tile (simplifyFlag env l tile)).2 = none)
    (hcancel : ctx.Err pre.length = some err) :
    (l.VTileLayer env ctx tile).vtl = none
    ∧ (l.VTileLayer env ctx tile).err = some err
    ∧ (l.VTileLayer env ctx tile).calls.map EncoderCall.feature = pre
    ∧ (l.VTileLayer env ctx tile).calls.map EncoderCall.index = List.range pre.length := by
  have hpre0 : ∀ (j : Nat) (g : Feature), pre[j]? = some g →
      ctx.Err (0 + j) = none ∧
      (env.VTileFeature g ctx (0 + j) kmap vmap tile
        (simplifyFlag env (⟨l, [], []⟩ : LoopState).l tile)).2 = none := by
    intro j g hg
    rw [Nat.zero_add]
    exact hpre j g hg
  have hloop := vtileLayerLoop_append env ctx kmap vmap tile pre (f :: post) 0 ⟨l, [], []⟩
  rw [vtileLayerLoop_all_ok env ctx kmap vmap tile pre 0 ⟨l, [], []⟩ hpre0] at hloop
  simp only at hloop
  rw [vtileLayerLoop_cancelled _ _ _ _ _ _ _ _ _ err (by rw [Nat.zero_add]; exact hcancel),
    ← hfs] at hloop
  rw [VTileLayer_of_loop_error l env ctx tile kmap vmap _ err hkv hloop]
  refine ⟨rfl, rfl, ?_, ?_⟩
  · simp only [List.nil_append]
    exact enumFrom_map_feature pre 0 _
  · simp only [List.nil_append]
    rw [enumFrom_map_index, List.range_eq_range']

/-- C4, at a sample input: with three features and a context found cancelled
at the second check, the call returns no layer and `context.Canceled`, and
only the first feature has reached the encoder. -/
theorem VTileLayer_context_cancelled_witness :
    (sampleLayer.VTileLayer sampleEnv (cancelledFrom 1) sampleTile).vtl = none
    ∧ (sampleLayer.VTileLayer sampleEnv (cancelledFrom 1) sampleTile).err =
        some GoError.Canceled
    ∧ (sampleLayer.VTileLayer sampleEnv (cancelledFrom 1) sampleTile).calls.map
        EncoderCall.feature = [⟨some 1, [], 0⟩]
    ∧ (sampleLayer.VTileLayer sampleEnv (cancelledFrom 1) sampleTile).calls.map
        EncoderCall.index = List.range [(⟨some 1, [], 0⟩ : Feature)].length :=
  VTileLayer_context_cancelled sampleLayer sampleEnv (cancelledFrom 1) sampleTile [] []
    [⟨some 1, [], 0⟩] [⟨some 3, [], 2⟩] ⟨none, [], 1⟩ GoError.Canceled rfl rfl
    (by
      intro j g hg
      cases j with
      | zero =>
        simp only [List.getElem?_cons_zero, Option.some.injEq] at hg
        subst hg
        exact ⟨rfl, rfl⟩
      | succ j => simp at hg)
    rfl

theorem errorfGettingVTileFeature_ne (err : GoError) : errorfGettingVTileFeature err ≠ err := by
  cases err with
  | Canceled => simp [errorfGettingVTileFeature]
  | DeadlineExceeded => simp [errorfGettingVTileFeature]
  | errorString msg =>
    intro h
    have hlen := congrArg (fun e => e.Error.length) h
    simp only [errorfGettingVTileFeature, GoError.Error, String.length_append] at hlen
    have hlit : "error getting VTileFeature: ".length = 28 := by decide
    omega

/-- C5: when the features before `f` pass their cancellation check and are
encoded without error, the check before `f` passes too, and the encoder
returns the error `err` for `f`, `VTileLayer` returns a nil layer and an
error, and `f` is the last feature the encoder is called for. The error is
`context.Canceled` itself when `err` is `context.Canceled`; for every other
`err` it is a new error, different from `err`, whose message is
"error getting VTileFeature: " followed by the message of `err`. -/
theorem VTileLayer_encoder_error (l : Layer) (env : Env) (ctx : Context) (tile : Tile)
    (kmap : List String) (vmap : List GoValue) (pre post : List Feature) (f : Feature)
    (err : GoError)
    (hkv : env.keyvalMapsFromFeatures l.features = (kmap, vmap, none))
    (hfs : l.features = pre ++ f :: post)
    (hpre : ∀ (j : Nat) (g : Feature), pre[j]? = some g →
      ctx.Err j = none ∧
      (env.VTileFeature g ctx j kmap vmap tile (simplifyFlag env l tile)).2 = none)
    (hctx : ctx.Err pre.length = none)
    (henc : (env.VTileFeature f ctx pre.length kmap vmap tile (simplifyFlag env l tile)).2 =
      some err) :
    (l.VTileLayer env ctx tile).vtl = none
    ∧ (err = GoError.Canceled → (l.VTileLayer env ctx tile).err = some GoError.Canceled)
    ∧ (err ≠ GoError.Canceled →
        (l.VTileLayer env ctx tile).err =
          some (GoError.errorString ("error getting VTileFeature: " ++ err.Error))
        ∧ (l.VTileLayer env ctx tile).err ≠ some err)
    ∧ (l.VTileLayer env ctx tile).calls.map EncoderCall.feature = pre ++ [f]
    ∧ (l.VTileLayer env ctx tile).calls.map EncoderCall.index =
        List.range (pre.length + 1) := by
  have hpre0 : ∀ (j : Nat) (g : Feature), pre[j]? = some g →
      ctx.Err (0 + j) = none ∧
      (env.VTileFeature g ctx (0 + j) kmap vmap tile
        (simplifyFlag env (⟨l, [], []⟩ : LoopState).l tile)).2 = none := by
    intro j g hg
    rw [Nat.zero_add]
    exact hpre j g hg
  have hflag : ∀ l2 : Layer, simplifyFlag env (if pre = [] then l else l2.setDefaultMaxZoom env) tile
      = simplifyFlag env (if pre = [] then l else l2) tile := by
    intro l2
    split
    · rfl
    · exact simplifyFlag_setDefaultMaxZoom env l2 tile
  have hloop := vtileLayerLoop_append env ctx kmap vmap tile pre (f :: post) 0 ⟨l, [], []⟩
  rw [vtileLayerLoop_all_ok env ctx kmap vmap tile pre 0 ⟨l, [], []⟩ hpre0] at hloop
  simp only at hloop
  rw [vtileLayerLoop_encoder_error _ _ _ _ _ _ _ _ _ err
      (by rw [Nat.zero_add]; exact hctx)
      (by
        simp only [Nat.zero_add]
        rw [hflag l]
        simpa using henc),
    ← hfs] at hloop
  rw [VTileLayer_of_loop_error l env ctx tile kmap vmap _ _ hkv hloop]
  refine ⟨rfl, ?_, ?_, ?_, ?_⟩
  · intro h
    simp [h]
  · intro h
    refine ⟨by simp [h, errorfGettingVTileFeature], ?_⟩
    simp only [h, if_false]
    intro h2
    exact errorfGettingVTileFeature_ne err (Option.some.inj h2)
  · simp only [List.nil_append, List.map_append, List.map_cons, List.map_nil]
    rw [enumFrom_map_feature pre 0 _]
  · simp only [List.nil_append, List.map_append, List.map_cons, List.map_nil]
    rw [enumFrom_map_index, List.range_eq_range', Nat.zero_add, List.range'_concat]
    simp

/-- C5, at a sample input: the sample encoder rejects the second of three
features, and the call returns no layer and a new error with the wrapped
message; the third feature never reaches the encoder. -/
theorem VTileLayer_encoder_error_witness :
    (sampleLayerBad.VTileLayer sampleEnv background sampleTile).vtl = none
    ∧ (GoError.errorString "bad geometry" = GoError.Canceled →
        (sampleLayerBad.VTileLayer sampleEnv background sampleTile).err =
          some GoError.Canceled)
    ∧ (GoError.errorString "bad geometry" ≠ GoError.Canceled →
        (sampleLayerBad.VTileLayer sampleEnv background sampleTile).err =
          some (GoError.errorString
            ("error getting VTileFeature: " ++ (GoError.errorString "bad geometry").Error))
        ∧ (sampleLayerBad.VTileLayer sampleEnv background sampleTile).err ≠
            some (GoError.errorString "bad geometry"))
    ∧ (sampleLayerBad.VTileLayer sampleEnv background sampleTile).calls.map
        EncoderCall.feature = [⟨some 1, [], 0⟩] ++ [⟨some 13, [], 1⟩]
    ∧ (sampleLayerBad.VTileLayer sampleEnv background sampleTile).calls.map
        EncoderCall.index = List.range ([(⟨some 1, [], 0⟩ : Feature)].length + 1) :=
  VTileLayer_encoder_error sampleLayerBad sampleEnv background sampleTile [] []
    [⟨some 1, [], 0⟩] [⟨some 3, [], 2⟩] ⟨some 13, [], 1⟩ (GoError.errorString "bad geometry")
    rfl rfl
    (by
      intro j g hg
      cases j with
      | zero =>
        simp only [List.getElem?_cons_zero, Option.some.injEq] at hg
        subst hg
        exact ⟨rfl, rfl⟩
      | succ j => simp at hg)
    rfl rfl

theorem uint_fourteen : uint 14 = 14 := by decide

/-- C6, as stated, fails: with the package variable `simplificationMaxZoom`
at 10, a layer without a bound of its own has its features encoded at zoom 12
with the simplify flag false, where the formula of the claim, with 14 in place
of zero, gives true. -/
theorem VTileLayer_simplify_flag_default_ten :
    sampleLayer.MaxSimplificationZoom = 0
    ∧ sampleEnvTen.simplificationMaxZoom = 10
    ∧ (sampleLayer.VTileLayer sampleEnvTen background sampleTileTwelve).calls.map
        EncoderCall.simplify = [false, false, false]
    ∧ (sampleEnvTen.simplifyGeometries && !sampleLayer.DontSimplify &&
        decide (sampleTileTwelve.Z <
          (if sampleLayer.MaxSimplificationZoom = 0 then 14
            else sampleLayer.MaxSimplificationZoom))) = true := by
  refine ⟨rfl, rfl, ?_, ?_⟩
  · decide
  · decide

/-- C6, amended: every call `VTileLayer` makes of a feature encoder passes as
simplify flag the global switch and not `DontSimplify` and `tile.Z` below the
effective bound, which is the layer's `MaxSimplificationZoom` when that is
non-zero and `uint(simplificationMaxZoom)`, the value of the package variable,
when it is zero; the feature so encoded is the one at the call's position in
the layer. When the package variable holds 14, the bound in place of zero is
14. -/
theorem VTileLayer_simplify_flag (l : Layer) (env : Env) (ctx : Context) (tile : Tile)
    (c : EncoderCall) (hc : c ∈ (l.VTileLayer env ctx tile).calls) :
    c.simplify =
        (env.simplifyGeometries && !l.DontSimplify &&
          decide (tile.Z <
            (if l.MaxSimplificationZoom = 0 then uint env.simplificationMaxZoom
              else l.MaxSimplificationZoom)))
    ∧ l.features[c.index]? = some c.feature
    ∧ (env.simplificationMaxZoom = 14 →
        c.simplify =
          (env.simplifyGeometries && !l.DontSimplify &&
            decide (tile.Z <
              (if l.MaxSimplificationZoom = 0 then 14 else l.MaxSimplificationZoom)))) := by
  obtain ⟨hs, hf⟩ := (VTileLayer_calls l env ctx tile).2 c hc
  refine ⟨?_, hf, ?_⟩
  · rw [hs]
    rfl
  · intro h14
    rw [hs]
    unfold simplifyFlag effectiveMaxSimplificationZoom
    rw [h14, uint_fourteen]

/-- C6, amended, at sample inputs: at zoom 12 a layer with no bound of its
own has its first feature encoded with the simplify flag false when the
package variable holds 10. -/
theorem VTileLayer_simplify_flag_witness :
    (⟨0, ⟨some 1, [], 0⟩, false⟩ : EncoderCall).simplify =
        (sampleEnvTen.simplifyGeometries && !sampleLayer.DontSimplify &&
          decide (sampleTileTwelve.Z <
            (if sampleLayer.MaxSimplificationZoom = 0 then uint sampleEnvTen.simplificationMaxZoom
              else sampleLayer.MaxSimplificationZoom)))
    ∧ sampleLayer.features[(⟨0, ⟨some 1, [], 0⟩, false⟩ : EncoderCall).index]? =
        some (⟨0, ⟨some 1, [], 0⟩, false⟩ : EncoderCall).feature
    ∧ (sampleEnvTen.simplificationMaxZoom = 14 →
        (⟨0, ⟨some 1, [], 0⟩, false⟩ : EncoderCall).simplify =
          (sampleEnvTen.simplifyGeometries && !sampleLayer.DontSimplify &&
            decide (sampleTileTwelve.Z <
              (if sampleLayer.MaxSimplificationZoom = 0 then 14
                else sampleLayer.MaxSimplificationZoom)))) :=
  VTileLayer_simplify_flag sampleLayer sampleEnvTen background sampleTileTwelve
    ⟨0, ⟨some 1, [], 0⟩, false⟩ (by decide)

theorem VTileLayer_ok_layer (l : Layer) (env : Env) (ctx : Context) (tile : Tile)
    (hok : (l.VTileLayer env ctx tile).err = none) :
    (l.VTileLayer env ctx tile).vtl =
        some { Version := some 2,
               Name := some l.Name,
               Features := (l.features.enumFrom 0).filterMap (fun p =>
                 (env.VTileFeature p.2 ctx p.1 (env.keyvalMapsFromFeatures l.features).1
                   (env.keyvalMapsFromFeatures l.features).2.1 tile
                   (simplifyFlag env l tile)).1),
               Keys := (env.keyvalMapsFromFeatures l.features).1,
               Values := (env.keyvalMapsFromFeatures l.features).2.1.map vectorTileValue,
               Extent := some (uint32 tile.Extent) }
    ∧ (env.keyvalMapsFromFeatures l.features).2.2 = none
    ∧ (∀ (j : Nat) (g : Feature), l.features[j]? = some g →
        ctx.Err j = none ∧
        (env.VTileFeature g ctx j (env.keyvalMapsFromFeatures l.features).1
          (env.keyvalMapsFromFeatures l.features).2.1 tile (simplifyFlag env l tile)).2 = none)
    ∧ (l.VTileLayer env ctx tile).calls.map EncoderCall.feature = l.features := by
  rcases hkv : env.keyvalMapsFromFeatures l.features with ⟨kmap, vmap, e⟩
  cases e with
  | some err =>
    rw [VTileLayer_of_keyval_error l env ctx tile kmap vmap err hkv] at hok
    exact Option.noConfusion hok
  | none =>
    rcases hr : vtileLayerLoop env ctx kmap vmap tile 0 l.features ⟨l, [], []⟩ with ⟨st, e⟩
    cases e with
    | some err =>
      rw [VTileLayer_of_loop_error l env ctx tile kmap vmap st err hkv hr] at hok
      exact Option.noConfusion hok
    | none =>
      have hall := vtileLayerLoop_err_none env ctx kmap vmap tile l.features 0 ⟨l, [], []⟩
        (by rw [hr])
      have hrun := vtileLayerLoop_all_ok env ctx kmap vmap tile l.features 0 ⟨l, [], []⟩ hall
      rw [hr] at hrun
      have hst := (Prod.mk.inj hrun).1
      rw [VTileLayer_of_loop_ok l env ctx tile kmap vmap st hkv hr]
      subst hst
      refine ⟨?_, rfl, ?_, ?_⟩
      · simp only [List.nil_append]
        congr 2
        split
        · rfl
        · rw [(setDefaultMaxZoom_frame env l).1]
      · intro j g hg
        have := hall j g hg
        rwa [Nat.zero_add] at this
      · simp only [List.nil_append]
        exact enumFrom_map_feature l.features 0 _

/-- C7: when `VTileLayer` returns no error, the layer it returns has version
2, the name of the layer, the key table of `keyvalMapsFromFeatures` as `Keys`,
the image of the value table under `vectorTileValue`, entry by entry, as
`Values`, and as `Features` the non-nil results of the encoder in the order
of the features; every cancellation check and every encoder call of that run
came back without error. -/
theorem VTileLayer_success (l : Layer) (env : Env) (ctx : Context) (tile : Tile)
    (hok : (l.VTileLayer env ctx tile).err = none) :
    (l.VTileLayer env ctx tile).vtl =
        some { Version := some 2,
               Name := some l.Name,
               Features := (l.features.enumFrom 0).filterMap (fun p =>
                 (env.VTileFeature p.2 ctx p.1 (env.keyvalMapsFromFeatures l.features).1
                   (env.keyvalMapsFromFeatures l.features).2.1 tile
                   (simplifyFlag env l tile)).1),
               Keys := (env.keyvalMapsFromFeatures l.features).1,
               Values := (env.keyvalMapsFromFeatures l.features).2.1.map vectorTileValue,
               Extent := some (uint32 tile.Extent) }
    ∧ (env.keyvalMapsFromFeatures l.features).2.2 = none
    ∧ (∀ (j : Nat) (g : Feature), l.features[j]? = some g →
        ctx.Err j = none ∧
        (env.VTileFeature g ctx j (env.keyvalMapsFromFeatures l.features).1
          (env.keyvalMapsFromFeatures l.features).2.1 tile (simplifyFlag env l tile)).2 = none)
    ∧ (l.VTileLayer env ctx tile).calls.map EncoderCall.feature = l.features :=
  VTileLayer_ok_layer l env ctx tile hok

/-- C7, at a sample input: of three features the second encodes to nothing,
and the returned layer holds the other two in their order. -/
theorem VTileLayer_success_witness :
    (sampleLayer.VTileLayer sampleEnv background sampleTile).err = none
    ∧ (sampleLayer.VTileLayer sampleEnv background sampleTile).vtl =
        some { Version := some 2, Name := some "roads",
               Features := [⟨some 1, [], 1, []⟩, ⟨some 3, [], 1, []⟩],
               Keys := [], Values := [], Extent := some 4096 } :=
  ⟨rfl, (VTileLayer_success sampleLayer sampleEnv background sampleTile rfl).1⟩

/-! ## What `VTileLayer` leaves of the layer -/

/-- C9, as stated, fails: a layer whose `MaxSimplificationZoom` is zero comes
out of `VTileLayer` with `MaxSimplificationZoom` 14, once a feature has
reached the encoder. -/
theorem VTileLayer_writes_max_zoom :
    sampleLayer.MaxSimplificationZoom = 0
    ∧ (sampleLayer.VTileLayer sampleEnv background sampleTile).l.MaxSimplificationZoom = 14
    ∧ (sampleLayer.VTileLayer sampleEnv background sampleTile).l ≠ sampleLayer := by
  refine ⟨rfl, rfl, ?_⟩
  decide

/-- C9, amended: whether it succeeds or fails, `VTileLayer` leaves the name,
the feature sequence, the extent and `DontSimplify` of the layer as they
were. `MaxSimplificationZoom` stays as it was when it is non-zero, and when no
feature reaches the encoder; when it is zero and a feature reaches the
encoder, it becomes `uint(simplificationMaxZoom)`. -/
theorem VTileLayer_frame (l : Layer) (env : Env) (ctx : Context) (tile : Tile) :
    (l.VTileLayer env ctx tile).l.Name = l.Name
    ∧ (l.VTileLayer env ctx tile).l.features = l.features
    ∧ (l.VTileLayer env ctx tile).l.extent = l.extent
    ∧ (l.VTileLayer env ctx tile).l.DontSimplify = l.DontSimplify
    ∧ (l.VTileLayer env ctx tile).l.MaxSimplificationZoom =
        (if l.MaxSimplificationZoom = 0 ∧ (l.VTileLayer env ctx tile).calls ≠ [] then
          uint env.simplificationMaxZoom
        else l.MaxSimplificationZoom) := by
  have h := (VTileLayer_calls l env ctx tile).1
  have hf := setDefaultMaxZoom_frame env l
  by_cases hcalls : (l.VTileLayer env ctx tile).calls = []
  · rw [if_pos hcalls] at h
    rw [h]
    simp [hcalls]
  · rw [if_neg hcalls] at h
    rw [h]
    refine ⟨hf.1, hf.2.1, hf.2.2.1, hf.2.2.2, ?_⟩
    rw [setDefaultMaxZoom_maxZoom]
    unfold effectiveMaxSimplificationZoom
    by_cases hz : l.MaxSimplificationZoom = 0
    · simp [hz, hcalls]
    · simp [hz]

/-! ## The attribute value encoder -/

theorem int64_eq_self (x : Int) (hlo : -2 ^ 63 ≤ x) (hhi : x < 2 ^ 63) : int64 x = x := by
  unfold int64
  rw [Int.emod_eq_of_lt (by omega) (by omega)]
  omega

theorem vectorTileValue_int8 (t : GoInt8) :
    vectorTileValue (.int8 t) = { SintValue := some t.val } := by
  have h := t.property
  simp only [vectorTileValue]
  rw [int64_eq_self _ (by omega) (by omega)]

theorem vectorTileValue_int16 (t : GoInt16) :
    vectorTileValue (.int16 t) = { SintValue := some t.val } := by
  have h := t.property
  simp only [vectorTileValue]
  rw [int64_eq_self _ (by omega) (by omega)]

theorem vectorTileValue_int32 (t : GoInt32) :
    vectorTileValue (.int32 t) = { SintValue := some t.val } := by
  have h := t.property
  simp only [vectorTileValue]
  rw [int64_eq_self _ (by omega) (by omega)]

theorem vectorTileValue_uint8 (t : GoUint8) :
    vectorTileValue (.uint8 t) = { SintValue := some (t.val : Int) } := by
  have h := t.property
  simp only [vectorTileValue]
  rw [int64_eq_self _ (by omega) (by omega)]

theorem vectorTileValue_uint16 (t : GoUint16) :
    vectorTileValue (.uint16 t) = { SintValue := some (t.val : Int) } := by
  have h := t.property
  simp only [vectorTileValue]
  rw [int64_eq_self _ (by omega) (by omega)]

theorem vectorTileValue_uint32 (t : GoUint32) :
    vectorTileValue (.uint32 t) = { SintValue := some (t.val : Int) } := by
  have h := t.property
  simp only [vectorTileValue]
  rw [int64_eq_self _ (by omega) (by omega)]

theorem vectorTileValue_other (id : Nat) (encoded : Option (List Nat)) :
    vectorTileValue (.other id encoded) = { XXX_unrecognized := encoded.getD [] } := by
  cases encoded <;> rfl

/-- C10: a call of `vectorTileValue` on the nil interface does not return: it
panics in `binary.Write`, where the claim has it return a value with empty
fallback bytes; so does a call on a value on which `String()` or
`binary.Write` panics. On every other input the call returns and routes by
the kind of the input. A string and a `Stringer` set `StringValue` alone (to
the string, to the result of `String()`); a bool sets `BoolValue` alone;
`int8`, `int16` and `int32` set `SintValue` alone, to the same number; `int64`
sets `IntValue` alone, so an `int16` and an `int64` holding the same number
give different values; `uint8`, `uint16` and `uint32` set `SintValue` alone,
to the same non-negative number; `uint64` sets `UintValue` alone; `float32`
sets `FloatValue` alone and `float64` sets `DoubleValue` alone. Every other
input on which `binary.Write` returns sets none of the typed fields and gives
the bytes of its serialization, or no bytes when `binary.Write` returns an
error. -/
theorem vectorTileValue_routing :
    vectorTileValueCall .nil = none
    ∧ (∀ id : Nat, vectorTileValueCall (.stringerPanics id) = none)
    ∧ (∀ id : Nat, vectorTileValueCall (.writePanics id) = none)
    ∧ (∀ v : GoValue, vectorTileValueCall (.value v) = some (vectorTileValue v))
    ∧ (∀ t : String, vectorTileValue (.string t) = { StringValue := some t })
    ∧ (∀ (id : Nat) (str : String),
        vectorTileValue (.stringer id str) = { StringValue := some str })
    ∧ (∀ t : Bool, vectorTileValue (.bool t) = { BoolValue := some t })
    ∧ (∀ t : GoInt8, vectorTileValue (.int8 t) = { SintValue := some t.val })
    ∧ (∀ t : GoInt16, vectorTileValue (.int16 t) = { SintValue := some t.val })
    ∧ (∀ t : GoInt32, vectorTileValue (.int32 t) = { SintValue := some t.val })
    ∧ (∀ t : GoInt64, vectorTileValue (.int64 t) = { IntValue := some t.val })
    ∧ (∀ t : GoUint8, vectorTileValue (.uint8 t) = { SintValue := some (t.val : Int) })
    ∧ (∀ t : GoUint16, vectorTileValue (.uint16 t) = { SintValue := some (t.val : Int) })
    ∧ (∀ t : GoUint32, vectorTileValue (.uint32 t) = { SintValue := some (t.val : Int) })
    ∧ (∀ t : GoUint64, vectorTileValue (.uint64 t) = { UintValue := some t.val })
    ∧ (∀ bits : Nat, vectorTileValue (.float32 bits) = { FloatValue := some bits })
    ∧ (∀ bits : Nat, vectorTileValue (.float64 bits) = { DoubleValue := some bits })
    ∧ (∀ (id : Nat) (bytes : List Nat),
        vectorTileValue (.other id (some bytes)) = { XXX_unrecognized := bytes })
    ∧ (∀ id : Nat, vectorTileValue (.other id none) = { XXX_unrecognized := [] })
    ∧ (∀ (t : GoInt16) (u : GoInt64), t.val = u.val →
        vectorTileValue (.int16 t) ≠ vectorTileValue (.int64 u))
    ∧ (∀ v : GoValue,
        (vectorTileValue v).typedFieldCount = (if v.fallbackBytes?.isSome then 0 else 1)
        ∧ (v.fallbackBytes?.isSome = false → (vectorTileValue v).XXX_unrecognized = [])) := by
  refine ⟨rfl, fun _ => rfl, fun _ => rfl, fun _ => rfl,
    fun _ => rfl, fun _ _ => rfl, fun _ => rfl, vectorTileValue_int8,
    vectorTileValue_int16, vectorTileValue_int32, fun _ => rfl, vectorTileValue_uint8,
    vectorTileValue_uint16, vectorTileValue_uint32, fun _ => rfl, fun _ => rfl, fun _ => rfl,
    fun _ _ => rfl, fun _ => rfl, ?_, ?_⟩
  · intro t u _ h
    rw [vectorTileValue_int16] at h
    simp [vectorTileValue] at h
  · intro v
    cases v with
    | other id encoded =>
      rw [vectorTileValue_other]
      simp [Tile_Value.typedFieldCount, GoValue.fallbackBytes?]
    | _ => simp [vectorTileValue, Tile_Value.typedFieldCount, GoValue.fallbackBytes?]

/-! ## Duplicates in the tables of the wire layer -/

theorem vectorTileValue_eq_cases (a b : GoValue) (h : vectorTileValue a = vectorTileValue b) :
    a = b
    ∨ (∃ n, a.narrowInt? = some n ∧ b.narrowInt? = some n)
    ∨ (∃ t, a.text? = some t ∧ b.text? = some t)
    ∨ (∃ bytes, a.fallbackBytes? = some bytes ∧ b.fallbackBytes? = some bytes) := by
  cases a <;> cases b <;>
    (try simp only [vectorTileValue_int8, vectorTileValue_int16, vectorTileValue_int32,
      vectorTileValue_uint8, vectorTileValue_uint16, vectorTileValue_uint32,
      vectorTileValue_other] at h) <;>
    (try simp only [vectorTileValue, Tile_Value.mk.injEq, Option.some.injEq, reduceCtorEq,
      and_true, true_and, and_false, false_and] at h) <;>
    simp [GoValue.narrowInt?, GoValue.text?, GoValue.fallbackBytes?, Subtype.ext_iff, h]

theorem filterMap_nodup_inj {α β : Type} (g : α → Option β) (xs : List α)
    (h : (xs.filterMap g).Nodup) (x y : α) (n : β) (hx : x ∈ xs) (hy : y ∈ xs)
    (hgx : g x = some n) (hgy : g y = some n) (hxs : xs.Nodup) : x = y := by
  induction xs with
  | nil => simp at hx
  | cons a rest ih =>
    have hrest : rest.Nodup := (List.nodup_cons.1 hxs).2
    have hxa : x = a ∨ x ∈ rest := List.mem_cons.1 hx
    have hya : y = a ∨ y ∈ rest := List.mem_cons.1 hy
    clear hx hy
    cases hga : g a with
    | none =>
      rw [List.filterMap_cons_none hga] at h
      rcases hxa with hxa | hxr
      · rw [hxa, hga] at hgx
        exact Option.noConfusion hgx
      · rcases hya with hya | hyr
        · rw [hya, hga] at hgy
          exact Option.noConfusion hgy
        · exact ih h hxr hyr hrest
    | some m =>
      rw [List.filterMap_cons_some hga, List.nodup_cons] at h
      rcases hxa with hxa | hxr
      · rcases hya with hya | hyr
        · rw [hxa, hya]
        · exfalso
          apply h.1
          rw [hxa, hga] at hgx
          rw [Option.some.inj hgx]
          exact List.mem_filterMap.2 ⟨y, hyr, hgy⟩
      · rcases hya with hya | hyr
        · exfalso
          apply h.1
          rw [hya, hga] at hgy
          rw [Option.some.inj hgy]
          exact List.mem_filterMap.2 ⟨x, hxr, hgx⟩
        · exact ih h.2 hxr hyr hrest

theorem toAttributeValue_of_text (a b : GoValue) (t : String) (ha : a.text? = some t)
    (hb : b.text? = some t) : a.toAttributeValue = b.toAttributeValue := by
  cases a <;> cases b <;> simp_all [GoValue.text?, GoValue.toAttributeValue]

theorem toAttributeValue_of_fallbackBytes (a b : GoValue) (bytes : List Nat)
    (ha : a.fallbackBytes? = some bytes) (hb : b.fallbackBytes? = some bytes) :
    a.toAttributeValue = b.toAttributeValue := by
  cases a <;> cases b <;> simp_all [GoValue.fallbackBytes?, GoValue.toAttributeValue]

theorem vectorTileValue_eq_attribute (a b : GoValue)
    (h : vectorTileValue a = vectorTileValue b) :
    a.toAttributeValue = b.toAttributeValue
    ∨ (∃ n, a.narrowInt? = some n ∧ b.narrowInt? = some n) := by
  rcases vectorTileValue_eq_cases a b h with h | h | ⟨t, h1, h2⟩ | ⟨bs, h1, h2⟩
  · exact Or.inl (by rw [h])
  · exact Or.inr h
  · exact Or.inl (toAttributeValue_of_text a b t h1 h2)
  · exact Or.inl (toAttributeValue_of_fallbackBytes a b bs h1 h2)

theorem vectorTileValue_of_narrowInt (a : GoValue) (n : Int) (h : a.narrowInt? = some n) :
    vectorTileValue a = { SintValue := some n } := by
  cases a <;> simp only [GoValue.narrowInt?, Option.some.injEq, reduceCtorEq] at h <;>
    subst h
  · exact vectorTileValue_int8 _
  · exact vectorTileValue_int16 _
  · exact vectorTileValue_int32 _
  · exact vectorTileValue_uint8 _
  · exact vectorTileValue_uint16 _
  · exact vectorTileValue_uint32 _

theorem filterMap_nodup_of_map_nodup {α β γ : Type} (f : α → γ) (g : α → Option β)
    (xs : List α)
    (h : ∀ x ∈ xs, ∀ y ∈ xs, ∀ n, g x = some n → g y = some n → f x = f y)
    (hn : (xs.map f).Nodup) : (xs.filterMap g).Nodup := by
  induction xs with
  | nil => simp
  | cons a rest ih =>
    rw [List.map_cons, List.nodup_cons] at hn
    have hrest := ih (fun x hx y hy => h x (List.mem_cons_of_mem a hx) y
      (List.mem_cons_of_mem a hy)) hn.2
    cases hga : g a with
    | none =>
      rw [List.filterMap_cons_none hga]
      exact hrest
    | some n =>
      rw [List.filterMap_cons_some hga, List.nodup_cons]
      refine ⟨?_, hrest⟩
      intro hmem
      obtain ⟨y, hy, hgy⟩ := List.mem_filterMap.1 hmem
      apply hn.1
      rw [h a (List.mem_cons_self a rest) y (List.mem_cons_of_mem a hy) n hga hgy]
      exact List.mem_map_of_mem f hy

theorem map_vectorTileValue_nodup_iff (vmap : List GoValue)
    (hvals : (vmap.map GoValue.toAttributeValue).Nodup) :
    (vmap.map vectorTileValue).Nodup ↔ (vmap.filterMap GoValue.narrowInt?).Nodup := by
  have hnodup : vmap.Nodup := List.Nodup.of_map _ hvals
  constructor
  · intro hn
    apply filterMap_nodup_of_map_nodup vectorTileValue GoValue.narrowInt? vmap _ hn
    intro x _ y _ n hx hy
    rw [vectorTileValue_of_narrowInt x n hx, vectorTileValue_of_narrowInt y n hy]
  · intro hnarrow
    apply List.Nodup.map_on _ hnodup
    intro x hx y hy hxy
    rcases vectorTileValue_eq_attribute x y hxy with h | ⟨n, h1, h2⟩
    · exact List.inj_on_of_nodup_map hvals hx hy h
    · exact filterMap_nodup_inj _ vmap hnarrow x y n hx hy h1 h2 hnodup

theorem insertUnique_nodup {α : Type} [DecidableEq α] (table : List α) (x : α)
    (h : table.Nodup) : (insertUnique table x).Nodup := by
  unfold insertUnique
  split
  · exact h
  · rename_i hx
    rw [List.nodup_append]
    refine ⟨h, List.nodup_singleton x, ?_⟩
    intro a ha hax
    rw [List.mem_singleton] at hax
    exact hx (hax ▸ ha)

theorem foldl_insertUnique_nodup {α β : Type} [DecidableEq α] (g : β → α) (tags : List β)
    (table : List α) (h : table.Nodup) :
    (tags.foldl (fun t kv => insertUnique t (g kv)) table).Nodup := by
  induction tags generalizing table with
  | nil => exact h
  | cons kv rest ih => exact ih _ (insertUnique_nodup table (g kv) h)

theorem insertValue_nodup (valMap : List GoValue) (v : GoValue)
    (h : (valMap.map GoValue.toAttributeValue).Nodup) :
    ((insertValue valMap v).map GoValue.toAttributeValue).Nodup := by
  unfold insertValue
  split
  · exact h
  · rename_i hv
    rw [List.map_append, List.nodup_append]
    refine ⟨h, by simp, ?_⟩
    intro a ha hav
    simp only [List.map_cons, List.map_nil, List.mem_singleton] at hav
    exact hv (hav ▸ ha)

theorem foldl_insertValue_nodup {β : Type} (g : β → GoValue) (tags : List β)
    (valMap : List GoValue) (h : (valMap.map GoValue.toAttributeValue).Nodup) :
    ((tags.foldl (fun t kv => insertValue t (g kv)) valMap).map
      GoValue.toAttributeValue).Nodup := by
  induction tags generalizing valMap with
  | nil => exact h
  | cons kv rest ih => exact ih _ (insertValue_nodup valMap (g kv) h)

theorem keyvalMapsFromFeaturesModel_nodup (features : List Feature) :
    (keyvalMapsFromFeaturesModel features).1.Nodup
    ∧ ((keyvalMapsFromFeaturesModel features).2.1.map GoValue.toAttributeValue).Nodup
    ∧ (keyvalMapsFromFeaturesModel features).2.2 = none :=
  ⟨foldl_insertUnique_nodup _ _ [] List.nodup_nil,
    foldl_insertValue_nodup _ _ [] List.nodup_nil, rfl⟩

/-- C8, as stated, fails: with the table builder of the spec, a feature that
carries the `int8` 5 and the `int16` 5 gives a value table of two distinct
attribute values, and `VTileLayer` succeeds with a `Values` list that holds
the same entry, `SintValue` 5, twice. -/
theorem VTileLayer_values_duplicate :
    (sampleLayerNarrow.VTileLayer sampleEnv background sampleTile).err = none
    ∧ (keyvalMapsFromFeaturesModel sampleLayerNarrow.features).2.1
        = [GoValue.int8 ⟨5, by decide⟩, GoValue.int16 ⟨5, by decide⟩]
    ∧ ((keyvalMapsFromFeaturesModel sampleLayerNarrow.features).2.1.map
        GoValue.toAttributeValue).Nodup
    ∧ ((sampleLayerNarrow.VTileLayer sampleEnv background sampleTile).vtl.map
        Tile_Layer.Values) = some [{ SintValue := some 5 }, { SintValue := some 5 }]
    ∧ ¬ ∀ out, (sampleLayerNarrow.VTileLayer sampleEnv background sampleTile).vtl = some out →
        out.Values.Nodup := by
  have h1 : (sampleLayerNarrow.VTileLayer sampleEnv background sampleTile).err = none := by
    decide
  have h3 : ((sampleLayerNarrow.VTileLayer sampleEnv background sampleTile).vtl.map
      Tile_Layer.Values) = some [{ SintValue := some 5 }, { SintValue := some 5 }] := by
    decide
  refine ⟨h1, by decide, (keyvalMapsFromFeaturesModel_nodup _).2.1, h3, ?_⟩
  intro hall
  cases hv : (sampleLayerNarrow.VTileLayer sampleEnv background sampleTile).vtl with
  | none => rw [hv] at h3; exact Option.noConfusion h3
  | some out =>
    have hn := hall out hv
    rw [hv] at h3
    simp only [Option.map_some', Option.some.injEq] at h3
    rw [h3] at hn
    simp at hn

/-- C8, amended: when `keyvalMapsFromFeatures` returns a key table without
duplicates and a value table whose entries are pairwise different attribute
values, as the table builder of the spec does, a successful `VTileLayer`
returns a layer whose `Keys` list is the key table and has no duplicates, and
whose `Values` list is the image of the value table under `vectorTileValue`,
entry by entry in the order of the table. `Values` has no duplicates exactly
when no two entries of the value table are narrow integers (`int8`, `int16`,
`int32`, `uint8`, `uint16`, `uint32`) holding the same number. -/
theorem VTileLayer_tables_nodup (l : Layer) (env : Env) (ctx : Context) (tile : Tile)
    (hkeys : (env.keyvalMapsFromFeatures l.features).1.Nodup)
    (hvals : ((env.keyvalMapsFromFeatures l.features).2.1.map
      GoValue.toAttributeValue).Nodup)
    (hok : (l.VTileLayer env ctx tile).err = none) :
    ∃ out, (l.VTileLayer env ctx tile).vtl = some out
      ∧ out.Keys = (env.keyvalMapsFromFeatures l.features).1
      ∧ out.Keys.Nodup
      ∧ out.Values = (env.keyvalMapsFromFeatures l.features).2.1.map vectorTileValue
      ∧ (out.Values.Nodup ↔
          ((env.keyvalMapsFromFeatures l.features).2.1.filterMap GoValue.narrowInt?).Nodup) := by
  have h := (VTileLayer_ok_layer l env ctx tile hok).1
  exact ⟨_, h, rfl, hkeys, rfl, map_vectorTileValue_nodup_iff _ hvals⟩

/-- C8, amended, at a sample input: two features with the attributes `name`
and `lanes`, sharing the name "Main", give a layer with two keys and three
values, none repeated. -/
theorem VTileLayer_tables_nodup_witness :
    (sampleLayerTagged.VTileLayer sampleEnv background sampleTile).err = none
    ∧ ((sampleLayerTagged.VTileLayer sampleEnv background sampleTile).vtl.map
        Tile_Layer.Keys) = some ["name", "lanes"]
    ∧ ((sampleLayerTagged.VTileLayer sampleEnv background sampleTile).vtl.map
        Tile_Layer.Values) =
          some [{ StringValue := some "Main" }, { SintValue := some 2 }, { SintValue := some 3 }]
    ∧ ∃ out, (sampleLayerTagged.VTileLayer sampleEnv background sampleTile).vtl = some out
      ∧ out.Keys = (sampleEnv.keyvalMapsFromFeatures sampleLayerTagged.features).1
      ∧ out.Keys.Nodup
      ∧ out.Values =
          (sampleEnv.keyvalMapsFromFeatures sampleLayerTagged.features).2.1.map vectorTileValue
      ∧ (out.Values.Nodup ↔
          ((sampleEnv.keyvalMapsFromFeatures sampleLayerTagged.features).2.1.filterMap
            GoValue.narrowInt?).Nodup) :=
  ⟨by decide, by decide, by decide,
    VTileLayer_tables_nodup sampleLayerTagged sampleEnv background sampleTile
      (keyvalMapsFromFeaturesModel_nodup sampleLayerTagged.features).1
      (keyvalMapsFromFeaturesModel_nodup sampleLayerTagged.features).2.1 (by decide)⟩

/-! ## Adding the same features twice -/

theorem hasFeatureID_addFeaturesLoop (id : Nat) (fs cur : List Feature) (skipped : Bool)
    (h : hasFeatureID id cur = true) :
    hasFeatureID id (addFeaturesLoop fs cur skipped).1 = true := by
  rw [hasFeatureID_iff] at h ⊢
  obtain ⟨cf, hcf, hid⟩ := h
  exact ⟨cf, (addFeaturesLoop_keeps_held fs cur skipped).subset hcf, hid⟩

theorem addFeaturesLoop_holds_ids (fs cur : List Feature) (skipped : Bool) (f : Feature)
    (id : Nat) (hf : f ∈ fs) (hid : f.ID = some id) :
    hasFeatureID id (addFeaturesLoop fs cur skipped).1 = true := by
  induction fs generalizing cur skipped with
  | nil => simp at hf
  | cons g rest ih =>
    rcases List.mem_cons.1 hf with hfg | hrest
    · subst hfg
      by_cases hm : hasFeatureID id cur = true
      · rw [addFeaturesLoop_cons_skip _ _ _ hid hm]
        exact hasFeatureID_addFeaturesLoop id rest cur true hm
      · rw [addFeaturesLoop_cons_add _ _ _ hid hm]
        apply hasFeatureID_addFeaturesLoop
        rw [hasFeatureID_iff]
        exact ⟨f, by simp, hid⟩
    · cases hg : g.ID with
      | none =>
        rw [addFeaturesLoop_cons_nil_id _ _ _ hg]
        exact ih _ _ hrest
      | some gid =>
        by_cases hm : hasFeatureID gid cur = true
        · rw [addFeaturesLoop_cons_skip _ _ _ hg hm]
          exact ih _ _ hrest
        · rw [addFeaturesLoop_cons_add _ _ _ hg hm]
          exact ih _ _ hrest

theorem addFeaturesLoop_all_held (fs cur : List Feature) (skipped : Bool)
    (h : ∀ f ∈ fs, ∃ id, f.ID = some id ∧ hasFeatureID id cur = true) :
    addFeaturesLoop fs cur skipped = (cur, skipped || !fs.isEmpty) := by
  induction fs generalizing skipped with
  | nil => simp [addFeaturesLoop]
  | cons g rest ih =>
    obtain ⟨id, hid, hm⟩ := h g (by simp)
    rw [addFeaturesLoop_cons_skip _ _ _ hid hm, ih true (fun f hf => h f (by simp [hf]))]
    simp

/-- C11: when every feature of `fs` carries a non-nil ID, a second call
`AddFeatures(fs...)` right after a first one leaves the layer, and with it the
feature sequence, exactly as the first call left it, and returns
`skipped = true` whenever `fs` is not empty. -/
theorem AddFeatures_twice (l : Layer) (fs : List Feature) (hids : ∀ f ∈ fs, f.ID ≠ none) :
    ((l.AddFeatures fs).1.AddFeatures fs).1 = (l.AddFeatures fs).1
    ∧ ((l.AddFeatures fs).1.AddFeatures fs).1.features = (l.AddFeatures fs).1.features
    ∧ (fs ≠ [] → ((l.AddFeatures fs).1.AddFeatures fs).2 = true) := by
  have hall : ∀ f ∈ fs, ∃ id, f.ID = some id
      ∧ hasFeatureID id (addFeaturesLoop fs l.features false).1 = true := by
    intro f hf
    cases hid : f.ID with
    | none => exact absurd hid (hids f hf)
    | some id => exact ⟨id, rfl, addFeaturesLoop_holds_ids fs l.features false f id hf hid⟩
  have hrun := addFeaturesLoop_all_held fs (addFeaturesLoop fs l.features false).1 false hall
  refine ⟨?_, ?_, ?_⟩
  · simp only [Layer.AddFeatures, hrun]
  · simp only [Layer.AddFeatures, hrun]
  · intro hne
    simp only [Layer.AddFeatures, hrun]
    cases fs with
    | nil => exact absurd rfl hne
    | cons f rest => rfl

/-- C11, at a sample input: a layer holding ID 1 takes the features with the
IDs 1, 2 and 2; the first call leaves it with the IDs 1 and 2, and the second
call changes nothing and reports a skip. -/
theorem AddFeatures_twice_witness :
    (((⟨"roads", [⟨some 1, [], 0⟩], none, false, 0⟩ : Layer).AddFeatures
        [⟨some 1, [], 5⟩, ⟨some 2, [], 6⟩, ⟨some 2, [], 7⟩]).1.features
      = [⟨some 1, [], 0⟩, ⟨some 2, [], 6⟩])
    ∧ ((((⟨"roads", [⟨some 1, [], 0⟩], none, false, 0⟩ : Layer).AddFeatures
          [⟨some 1, [], 5⟩, ⟨some 2, [], 6⟩, ⟨some 2, [], 7⟩]).1.AddFeatures
        [⟨some 1, [], 5⟩, ⟨some 2, [], 6⟩, ⟨some 2, [], 7⟩]).1.features
      = ((⟨"roads", [⟨some 1, [], 0⟩], none, false, 0⟩ : Layer).AddFeatures
          [⟨some 1, [], 5⟩, ⟨some 2, [], 6⟩, ⟨some 2, [], 7⟩]).1.features)
    ∧ ((((⟨"roads", [⟨some 1, [], 0⟩], none, false, 0⟩ : Layer).AddFeatures
          [⟨some 1, [], 5⟩, ⟨some 2, [], 6⟩, ⟨some 2, [], 7⟩]).1.AddFeatures
        [⟨some 1, [], 5⟩, ⟨some 2, [], 6⟩, ⟨some 2, [], 7⟩]).2 = true) :=
  ⟨rfl,
    (AddFeatures_twice ⟨"roads", [⟨some 1, [], 0⟩], none, false, 0⟩
      [⟨some 1, [], 5⟩, ⟨some 2, [], 6⟩, ⟨some 2, [], 7⟩] (by decide)).2.1,
    (AddFeatures_twice ⟨"roads", [⟨some 1, [], 0⟩], none, false, 0⟩
      [⟨some 1, [], 5⟩, ⟨some 2, [], 6⟩, ⟨some 2, [], 7⟩] (by decide)).2.2 (by decide)⟩

/-! ## The extent of a layer -/

theorem VTileLayer_extent (l : Layer) (env : Env) (ctx : Context) (tile : Tile) :
    (l.VTileLayer env ctx tile).l.extent = l.extent := by
  rw [(VTileLayer_calls l env ctx tile).1]
  split
  · rfl
  · exact (setDefaultMaxZoom_frame env l).2.2.1

theorem LayerCall_apply_extent (l : Layer) (c : LayerCall) :
    (c.apply l).extent = (match c with
      | .SetExtent e => some e
      | _ => l.extent) := by
  cases c with
  | AddFeatures features => rfl
  | RemoveFeature idxs => rfl
  | SetExtent e => rfl
  | VTileLayer env ctx tile => exact VTileLayer_extent l env ctx tile

theorem runCalls_extent (l : Layer) (calls : List LayerCall) :
    (runCalls l calls).extent = (match lastSetExtent calls with
      | some e => some e
      | none => l.extent) := by
  induction calls generalizing l with
  | nil => rfl
  | cons c rest ih =>
    have hstep : runCalls l (c :: rest) = runCalls (c.apply l) rest := rfl
    rw [hstep, ih]
    cases hrest : lastSetExtent rest with
    | some e => simp [lastSetExtent, hrest]
    | none =>
      have hc := LayerCall_apply_extent l c
      cases c <;> simp [lastSetExtent, hrest] <;> simpa using hc

/-- C12: `Extent()` returns 4096 on a layer whose extent was never set: on a
new layer, and on it after any calls of its methods other than `SetExtent`.
After `SetExtent(e)` it returns `e`, and after any sequence of calls it
returns the value of the last `SetExtent` among them. On a nil layer
`Extent()` returns 4096, also after a `SetExtent` on that nil layer. -/
theorem Extent_contract :
    (∀ l : Layer, l.extent = none → l.Extent = 4096)
    ∧ (∀ (l : Layer) (calls : List LayerCall), l.extent = none →
        lastSetExtent calls = none → (runCalls l calls).Extent = 4096)
    ∧ (∀ (l : Layer) (e : Int), (l.SetExtent e).Extent = e)
    ∧ (∀ (l : Layer) (calls : List LayerCall) (e : Int),
        lastSetExtent calls = some e → (runCalls l calls).Extent = e)
    ∧ LayerRef.Extent none = 4096
    ∧ (∀ e : Int, LayerRef.Extent (LayerRef.SetExtent none e) = 4096)
    ∧ (∀ l : Layer, LayerRef.Extent (some l) = l.Extent)
    ∧ (∀ (l : Layer) (e : Int), LayerRef.Extent (LayerRef.SetExtent (some l) e) = e)
    ∧ (runCalls ⟨"roads", [], none, false, 0⟩
        [.SetExtent 512, .AddFeatures [⟨some 7, [], 0⟩], .SetExtent 256,
          .RemoveFeature [0]]).Extent = 256 := by
  refine ⟨?_, ?_, ?_, ?_, rfl, fun _ => rfl, ?_, fun _ _ => rfl, rfl⟩
  · intro l h
    simp [Layer.Extent, h]
  · intro l calls h hlast
    have := runCalls_extent l calls
    rw [hlast] at this
    simp only at this
    simp [Layer.Extent, this, h]
  · intro l e
    rfl
  · intro l calls e hlast
    have := runCalls_extent l calls
    rw [hlast] at this
    simp only at this
    simp [Layer.Extent, this]
  · intro l
    rfl

/-! ## Line primitives -/

theorem swap_bounds {K : Type} [LinearOrderedField K] (a b : K) :
    (if a > b then (b, a) else (a, b)) = (min a b, max a b) := by
  by_cases h : a > b
  · rw [if_pos h, min_eq_right (le_of_lt h), max_eq_left (le_of_lt h)]
  · rw [if_neg h, min_eq_left (not_lt.1 h), max_eq_right (not_lt.1 h)]

theorem InBetween_eq {K : Type} [LinearOrderedField K] (l : Line K) (pt : Pt K) :
    l.InBetween pt =
      (decide (min l.p0.X l.p1.X ≤ pt.X) && decide (pt.X ≤ max l.p0.X l.p1.X)
        && decide (min l.p0.Y l.p1.Y ≤ pt.Y) && decide (pt.Y ≤ max l.p0.Y l.p1.Y)) := by
  simp only [Line.InBetween, swap_bounds]

/-- C13: `InBetween(P)` is true exactly when `P.X` lies between the smaller
and the larger of the two X coordinates of the line and `P.Y` between the
smaller and the larger of the two Y coordinates, bounds included; the line
with its endpoints exchanged gives the same answer. -/
theorem InBetween_iff {K : Type} [LinearOrderedField K] (l : Line K) (P : Pt K) :
    (l.InBetween P = true ↔
      (min l.p0.X l.p1.X ≤ P.X ∧ P.X ≤ max l.p0.X l.p1.X)
      ∧ (min l.p0.Y l.p1.Y ≤ P.Y ∧ P.Y ≤ max l.p0.Y l.p1.Y))
    ∧ l.InBetween P = (Line.mk l.p1 l.p0).InBetween P := by
  constructor
  · rw [InBetween_eq]
    simp only [Bool.and_eq_true, decide_eq_true_eq]
    tauto
  · rw [InBetween_eq, InBetween_eq]
    simp only [min_comm l.p1.X, max_comm l.p1.X, min_comm l.p1.Y, max_comm l.p1.Y]

theorem ExInBetween_eq {K : Type} [LinearOrderedField K] (l : Line K) (pt : Pt K) :
    l.ExInBetween pt =
      ((if max l.p0.X l.p1.X - min l.p0.X l.p1.X = 0 then true
          else decide (min l.p0.X l.p1.X < pt.X) && decide (pt.X < max l.p0.X l.p1.X))
        && (if max l.p0.Y l.p1.Y - min l.p0.Y l.p1.Y = 0 then true
          else decide (min l.p0.Y l.p1.Y < pt.Y) && decide (pt.Y < max l.p0.Y l.p1.Y))) := by
  simp only [Line.ExInBetween, swap_bounds]

theorem axis_good_iff {K : Type} [LinearOrderedField K] (lo hi v : K) :
    (if hi - lo = 0 then true else decide (lo < v) && decide (v < hi)) = true ↔
      (lo = hi ∨ (lo < v ∧ v < hi)) := by
  by_cases h : hi - lo = 0
  · have : lo = hi := (sub_eq_zero.1 h).symm
    simp [h, this]
  · have : lo ≠ hi := fun e => h (sub_eq_zero.2 e.symm)
    simp [h, this]

/-- C14: with `lx <= gx` and `ly <= gy` the smaller and larger coordinates of
the endpoints, `ExInBetween(pt)` is true exactly when `lx = gx` or
`lx < pt.X < gx`, and `ly = gy` or `ly < pt.Y < gy`: open bounds on each axis,
and an axis of zero extent passes whatever the coordinate of `pt` on it. -/
theorem ExInBetween_iff {K : Type} [LinearOrderedField K] (l : Line K) (pt : Pt K) :
    (l.ExInBetween pt = true ↔
      (min l.p0.X l.p1.X = max l.p0.X l.p1.X
        ∨ (min l.p0.X l.p1.X < pt.X ∧ pt.X < max l.p0.X l.p1.X))
      ∧ (min l.p0.Y l.p1.Y = max l.p0.Y l.p1.Y
        ∨ (min l.p0.Y l.p1.Y < pt.Y ∧ pt.Y < max l.p0.Y l.p1.Y)))
    ∧ (l.p0.X = l.p1.X → l.p0.Y = l.p1.Y → l.ExInBetween pt = true) := by
  have key : l.ExInBetween pt = true ↔
      (min l.p0.X l.p1.X = max l.p0.X l.p1.X
        ∨ (min l.p0.X l.p1.X < pt.X ∧ pt.X < max l.p0.X l.p1.X))
      ∧ (min l.p0.Y l.p1.Y = max l.p0.Y l.p1.Y
        ∨ (min l.p0.Y l.p1.Y < pt.Y ∧ pt.Y < max l.p0.Y l.p1.Y)) := by
    rw [ExInBetween_eq, Bool.and_eq_true, axis_good_iff, axis_good_iff]
  refine ⟨key, ?_⟩
  intro hx hy
  rw [key, hx, hy]
  simp

theorem min_eq_max_iff_eq {K : Type} [LinearOrderedField K] (a b : K) :
    min a b = max a b ↔ a = b := by
  constructor
  · intro h
    exact le_antisymm
      (le_trans (le_max_left a b) (h ▸ min_le_right a b))
      (le_trans (le_max_right a b) (h ▸ min_le_left a b))
  · intro h
    rw [h, min_self, max_self]

/-- C15, as stated, fails: on the vertical line (2,0)-(2,5) the points (2,0)
and (2,5), whose Y lies in the closed interval [0,5], are not
`ExInBetween`. -/
theorem ExInBetween_vertical_endpoints :
    (min (0 : ℚ) 5 ≤ 0 ∧ (0 : ℚ) ≤ max 0 5)
    ∧ (NewLine (2 : ℚ) 0 2 5).ExInBetween ⟨2, 0⟩ = false
    ∧ (min (0 : ℚ) 5 ≤ 5 ∧ (5 : ℚ) ≤ max 0 5)
    ∧ (NewLine (2 : ℚ) 0 2 5).ExInBetween ⟨2, 5⟩ = false := by
  refine ⟨by norm_num, ?_, by norm_num, ?_⟩
  · norm_num [Line.ExInBetween, NewLine]
  · norm_num [Line.ExInBetween, NewLine]

/-- C15, amended: on a vertical line from `(c, a)` to `(c, b)` a point
`(x, y)`, whatever its `x`, is `ExInBetween` exactly when `a = b` or `y` lies
strictly between the smaller and the larger of `a` and `b`; so for every `y`
in the open interval the point `(c, y)` is `ExInBetween`, and on the line
(2,0)-(2,5) the point (2,3) is. -/
theorem ExInBetween_vertical {K : Type} [LinearOrderedField K] (c a b x y : K) :
    ((Line.mk ⟨c, a⟩ ⟨c, b⟩).ExInBetween ⟨x, y⟩ = true ↔
      (a = b ∨ (min a b < y ∧ y < max a b)))
    ∧ (min a b < y → y < max a b → (Line.mk ⟨c, a⟩ ⟨c, b⟩).ExInBetween ⟨c, y⟩ = true)
    ∧ (NewLine (2 : ℚ) 0 2 5).ExInBetween ⟨2, 3⟩ = true := by
  have key : ∀ x : K, ((Line.mk ⟨c, a⟩ ⟨c, b⟩).ExInBetween ⟨x, y⟩ = true ↔
      (a = b ∨ (min a b < y ∧ y < max a b))) := by
    intro x
    rw [ExInBetween_eq, Bool.and_eq_true, axis_good_iff, axis_good_iff, min_eq_max_iff_eq]
    simp
  refine ⟨key x, ?_, ?_⟩
  · intro h1 h2
    exact (key c).2 (Or.inr ⟨h1, h2⟩)
  · norm_num [Line.ExInBetween, NewLine]

theorem Clamp_X {K : Type} [LinearOrderedField K] (l : Line K) (pt : Pt K) :
    (l.Clamp pt).X = max (min l.p0.X l.p1.X) (min pt.X (max l.p0.X l.p1.X)) := by
  have hle : min l.p0.X l.p1.X ≤ max l.p0.X l.p1.X := min_le_max
  simp only [Line.Clamp, swap_bounds]
  by_cases h1 : pt.X < min l.p0.X l.p1.X
  · have h2 : ¬ pt.X > max l.p0.X l.p1.X := not_lt.2 (le_trans (le_of_lt h1) hle)
    rw [if_pos h1, if_neg h2]
    split <;> split <;>
      simp [min_eq_left (le_trans (le_of_lt h1) hle), max_eq_left (le_of_lt h1)]
  · by_cases h2 : pt.X > max l.p0.X l.p1.X
    · rw [if_neg h1, if_pos h2]
      split <;> split <;> simp [min_eq_right (le_of_lt h2), max_eq_right hle]
    · rw [if_neg h1, if_neg h2]
      split <;> split <;> simp [min_eq_left (not_lt.1 h2), max_eq_right (not_lt.1 h1)]

theorem Clamp_Y {K : Type} [LinearOrderedField K] (l : Line K) (pt : Pt K) :
    (l.Clamp pt).Y = max (min l.p0.Y l.p1.Y) (min pt.Y (max l.p0.Y l.p1.Y)) := by
  have hle : min l.p0.Y l.p1.Y ≤ max l.p0.Y l.p1.Y := min_le_max
  simp only [Line.Clamp, swap_bounds]
  by_cases h1 : pt.Y < min l.p0.Y l.p1.Y
  · have h2 : ¬ pt.Y > max l.p0.Y l.p1.Y := not_lt.2 (le_trans (le_of_lt h1) hle)
    rw [if_pos h1, if_neg h2]
    simp [min_eq_left (le_trans (le_of_lt h1) hle), max_eq_left (le_of_lt h1)]
  · by_cases h2 : pt.Y > max l.p0.Y l.p1.Y
    · rw [if_neg h1, if_pos h2]
      simp [min_eq_right (le_of_lt h2), max_eq_right hle]
    · rw [if_neg h1, if_neg h2]
      split <;> (try split) <;> simp [min_eq_left (not_lt.1 h2), max_eq_right (not_lt.1 h1)]

theorem Pt_eq_of_coords {K : Type} (p q : Pt K) (hx : p.X = q.X) (hy : p.Y = q.Y) : p = q := by
  cases p
  cases q
  simp only at hx hy
  rw [hx, hy]

theorem clampCoord_fixed {K : Type} [LinearOrderedField K] (lo hi v : K) (h1 : lo ≤ v)
    (h2 : v ≤ hi) : max lo (min v hi) = v := by
  rw [min_eq_left h2, max_eq_right h1]

theorem Clamp_of_InBetween {K : Type} [LinearOrderedField K] (l : Line K) (pt : Pt K)
    (h : l.InBetween pt = true) : l.Clamp pt = pt := by
  rw [InBetween_eq] at h
  simp only [Bool.and_eq_true, decide_eq_true_eq] at h
  obtain ⟨⟨⟨h1, h2⟩, h3⟩, h4⟩ := h
  apply Pt_eq_of_coords
  · rw [Clamp_X, clampCoord_fixed _ _ _ h1 h2]
  · rw [Clamp_Y, clampCoord_fixed _ _ _ h3 h4]

theorem InBetween_Clamp {K : Type} [LinearOrderedField K] (l : Line K) (pt : Pt K) :
    l.InBetween (l.Clamp pt) = true := by
  rw [InBetween_eq]
  simp only [Bool.and_eq_true, decide_eq_true_eq, Clamp_X, Clamp_Y]
  exact ⟨⟨⟨le_max_left _ _, max_le min_le_max (min_le_right _ _)⟩, le_max_left _ _⟩,
    max_le min_le_max (min_le_right _ _)⟩

/-- C16: `Clamp(pt)` has `X = max(lx, min(pt.X, gx))` and
`Y = max(ly, min(pt.Y, gy))` for the ranges `[lx, gx]` and `[ly, gy]` of the
endpoints. A coordinate below its range moves to the lower edge, one above it
to the upper edge, one inside stays; `Clamp(pt) = pt` when `InBetween(pt)`
holds; `InBetween(Clamp(pt))` always holds; clamping twice is clamping
once. -/
theorem Clamp_contract {K : Type} [LinearOrderedField K] (l : Line K) (pt : Pt K) :
    (l.Clamp pt).X = max (min l.p0.X l.p1.X) (min pt.X (max l.p0.X l.p1.X))
    ∧ (l.Clamp pt).Y = max (min l.p0.Y l.p1.Y) (min pt.Y (max l.p0.Y l.p1.Y))
    ∧ (pt.X < min l.p0.X l.p1.X → (l.Clamp pt).X = min l.p0.X l.p1.X)
    ∧ (max l.p0.X l.p1.X < pt.X → (l.Clamp pt).X = max l.p0.X l.p1.X)
    ∧ (min l.p0.X l.p1.X ≤ pt.X → pt.X ≤ max l.p0.X l.p1.X → (l.Clamp pt).X = pt.X)
    ∧ (pt.Y < min l.p0.Y l.p1.Y → (l.Clamp pt).Y = min l.p0.Y l.p1.Y)
    ∧ (max l.p0.Y l.p1.Y < pt.Y → (l.Clamp pt).Y = max l.p0.Y l.p1.Y)
    ∧ (min l.p0.Y l.p1.Y ≤ pt.Y → pt.Y ≤ max l.p0.Y l.p1.Y → (l.Clamp pt).Y = pt.Y)
    ∧ (l.InBetween pt = true → l.Clamp pt = pt)
    ∧ l.InBetween (l.Clamp pt) = true
    ∧ l.Clamp (l.Clamp pt) = l.Clamp pt := by
  have hxle : min l.p0.X l.p1.X ≤ max l.p0.X l.p1.X := min_le_max
  have hyle : min l.p0.Y l.p1.Y ≤ max l.p0.Y l.p1.Y := min_le_max
  refine ⟨Clamp_X l pt, Clamp_Y l pt, ?_, ?_, ?_, ?_, ?_, ?_, Clamp_of_InBetween l pt,
    InBetween_Clamp l pt, Clamp_of_InBetween l _ (InBetween_Clamp l pt)⟩
  · intro h
    rw [Clamp_X, min_eq_left (le_trans (le_of_lt h) hxle), max_eq_left (le_of_lt h)]
  · intro h
    rw [Clamp_X, min_eq_right (le_of_lt h), max_eq_right hxle]
  · intro h1 h2
    rw [Clamp_X, clampCoord_fixed _ _ _ h1 h2]
  · intro h
    rw [Clamp_Y, min_eq_left (le_trans (le_of_lt h) hyle), max_eq_left (le_of_lt h)]
  · intro h
    rw [Clamp_Y, min_eq_right (le_of_lt h), max_eq_right hyle]
  · intro h1 h2
    rw [Clamp_Y, clampCoord_fixed _ _ _ h1 h2]

theorem Pt_ne_iff {K : Type} [LinearOrderedField K] (p0 p1 : Pt K) :
    p0 ≠ p1 ↔ (p1.X - p0.X ≠ 0 ∨ p1.Y - p0.Y ≠ 0) := by
  constructor
  · intro h
    by_contra hcon
    push_neg at hcon
    exact h (Pt_eq_of_coords p0 p1 (sub_eq_zero.1 hcon.1).symm (sub_eq_zero.1 hcon.2).symm)
  · rintro h rfl
    simp at h

theorem cross_eq_zero_iff {K : Type} [LinearOrderedField K] (p0 p1 pt : Pt K) (h : p0 ≠ p1) :
    cross p0 p1 pt = 0 ↔ OnLine p0 p1 pt := by
  unfold cross OnLine
  constructor
  · intro hc
    rcases (Pt_ne_iff p0 p1).1 h with hx | hy
    · refine ⟨(pt.X - p0.X) / (p1.X - p0.X), ?_, ?_⟩
      · field_simp
      · field_simp
        linear_combination hc
    · refine ⟨(pt.Y - p0.Y) / (p1.Y - p0.Y), ?_, ?_⟩
      · field_simp
        linear_combination -hc
      · field_simp
  · rintro ⟨t, hx, hy⟩
    rw [hx, hy]
    ring

/-- C19: `IsLeft(pt)` is the 2-D cross product of `p1 - p0` with `pt - p0`,
that is `DeltaX * (pt.Y - p0.Y) - (pt.X - p0.X) * DeltaY`; when `p0` and `p1`
differ it is 0 exactly when `pt` lies on the infinite line through them. For
the line (0,0)-(1,0) it is positive at (0,1), negative at (0,-1) and 0 at
(1/2,0). -/
theorem IsLeft_contract {K : Type} [LinearOrderedField K] (l : Line K) (pt : Pt K) :
    l.IsLeft pt = cross l.p0 l.p1 pt
    ∧ l.IsLeft pt = l.DeltaX * (pt.Y - l.p0.Y) - (pt.X - l.p0.X) * l.DeltaY
    ∧ l.DeltaX = l.p1.X - l.p0.X
    ∧ l.DeltaY = l.p1.Y - l.p0.Y
    ∧ (l.p0 ≠ l.p1 → (l.IsLeft pt = 0 ↔ OnLine l.p0 l.p1 pt))
    ∧ 0 < (NewLine (0 : ℚ) 0 1 0).IsLeft ⟨0, 1⟩
    ∧ (NewLine (0 : ℚ) 0 1 0).IsLeft ⟨0, -1⟩ < 0
    ∧ (NewLine (0 : ℚ) 0 1 0).IsLeft ⟨1 / 2, 0⟩ = 0 := by
  have hcross : l.IsLeft pt = cross l.p0 l.p1 pt := by
    simp only [Line.IsLeft, Line.DeltaX, Line.DeltaY, cross]
    ring
  refine ⟨hcross, rfl, rfl, rfl, ?_, ?_, ?_, ?_⟩
  · intro h
    rw [hcross]
    exact cross_eq_zero_iff l.p0 l.p1 pt h
  · norm_num [Line.IsLeft, Line.DeltaX, Line.DeltaY, NewLine]
  · norm_num [Line.IsLeft, Line.DeltaX, Line.DeltaY, NewLine]
  · norm_num [Line.IsLeft, Line.DeltaX, Line.DeltaY, NewLine]

/-- C18: with `dx = x1 - x0` and `dy = y1 - y0`, `SlopeIntercept` returns
`(0, y0, dx != 0)` when `dx` or `dy` is zero, so slope 0, intercept `y0` and
`defined = true` for a horizontal line of two different points, and
`defined = false` for every vertical line; otherwise it returns
`(dy/dx, y0 - (dy/dx) * x0, true)`. The line (0,5)-(3,5) gives `(0, 5, true)`,
the line (2,0)-(2,5) gives `defined = false`. -/
theorem SlopeIntercept_contract {K : Type} [LinearOrderedField K] (l : Line K) :
    ((l.p1.X - l.p0.X = 0 ∨ l.p1.Y - l.p0.Y = 0) →
        l.SlopeIntercept = (0, l.p0.Y, decide (l.p1.X - l.p0.X ≠ 0)))
    ∧ (l.p1.Y - l.p0.Y = 0 → l.p1.X - l.p0.X ≠ 0 → l.SlopeIntercept = (0, l.p0.Y, true))
    ∧ (l.p1.X - l.p0.X = 0 → l.SlopeIntercept.2.2 = false)
    ∧ (l.p0.X = l.p1.X → l.SlopeIntercept = (0, l.p0.Y, false))
    ∧ (l.p1.X - l.p0.X ≠ 0 → l.p1.Y - l.p0.Y ≠ 0 →
        l.SlopeIntercept =
          ((l.p1.Y - l.p0.Y) / (l.p1.X - l.p0.X),
            l.p0.Y - ((l.p1.Y - l.p0.Y) / (l.p1.X - l.p0.X)) * l.p0.X, true))
    ∧ (NewLine (0 : ℚ) 5 3 5).SlopeIntercept = (0, 5, true)
    ∧ (NewLine (2 : ℚ) 0 2 5).SlopeIntercept.2.2 = false := by
  refine ⟨?_, ?_, ?_, ?_, ?_, ?_, ?_⟩
  · intro h
    simp only [Line.SlopeIntercept, if_pos h]
  · intro hy hx
    simp [Line.SlopeIntercept, hy, hx]
  · intro hx
    simp [Line.SlopeIntercept, hx]
  · intro hx
    simp [Line.SlopeIntercept, hx]
  · intro hx hy
    simp [Line.SlopeIntercept, hx, hy]
  · norm_num [Line.SlopeIntercept, NewLine]
  · norm_num [Line.SlopeIntercept, NewLine]

/-! ## The distance of a point from a line -/

theorem distance_denominator_eq {K : Type} [LinearOrderedField K] (l : Line K) (pt : Pt K) :
    |((l.p1.Y - l.p0.Y) * pt.X) - ((l.p1.X - l.p0.X) * pt.Y) + (l.p1.X * l.p0.Y)
        - (l.p1.Y * l.p0.X)| = |cross l.p0 l.p1 pt| := by
  rw [← abs_neg (cross l.p0 l.p1 pt)]
  congr 1
  unfold cross
  ring

theorem sum_squares_eq_zero_iff {K : Type} [LinearOrderedField K] (p0 p1 : Pt K) :
    (p1.Y - p0.Y) ^ 2 + (p1.X - p0.X) ^ 2 = 0 ↔ p0 = p1 := by
  constructor
  · intro h
    have hy : (p1.Y - p0.Y) ^ 2 = 0 := by
      nlinarith [sq_nonneg (p1.Y - p0.Y), sq_nonneg (p1.X - p0.X)]
    have hx : (p1.X - p0.X) ^ 2 = 0 := by
      nlinarith [sq_nonneg (p1.Y - p0.Y), sq_nonneg (p1.X - p0.X)]
    exact Pt_eq_of_coords p0 p1 (sub_eq_zero.1 (pow_eq_zero_iff (by norm_num) |>.1 hx)).symm
      (sub_eq_zero.1 (pow_eq_zero_iff (by norm_num) |>.1 hy)).symm
  · rintro rfl
    simp

theorem DistanceFromPoint_eq {K : Type} [LinearOrderedField K] (sqrt : K → K) (l : Line K)
    (pt : Pt K) :
    l.DistanceFromPoint sqrt pt =
      if sqrt ((l.p1.Y - l.p0.Y) ^ 2 + (l.p1.X - l.p0.X) ^ 2) = 0 then 0
      else |cross l.p0 l.p1 pt| / sqrt ((l.p1.Y - l.p0.Y) ^ 2 + (l.p1.X - l.p0.X) ^ 2) := by
  simp only [Line.DistanceFromPoint, distance_denominator_eq]

theorem sqrt_eq_zero_iff_of_square {K : Type} [LinearOrderedField K] (n s : K)
    (hs : n * n = s) : n = 0 ↔ s = 0 := by
  constructor
  · intro h
    rw [← hs, h, mul_zero]
  · intro h
    rw [h] at hs
    exact mul_self_eq_zero.1 hs

theorem DistanceFromPoint_sq {K : Type} [LinearOrderedField K] (sqrt : K → K) (l : Line K)
    (pt : Pt K)
    (hs : sqrt ((l.p1.Y - l.p0.Y) ^ 2 + (l.p1.X - l.p0.X) ^ 2)
        * sqrt ((l.p1.Y - l.p0.Y) ^ 2 + (l.p1.X - l.p0.X) ^ 2)
      = (l.p1.Y - l.p0.Y) ^ 2 + (l.p1.X - l.p0.X) ^ 2) :
    l.DistanceFromPoint sqrt pt * l.DistanceFromPoint sqrt pt
        * ((l.p1.Y - l.p0.Y) ^ 2 + (l.p1.X - l.p0.X) ^ 2)
      = cross l.p0 l.p1 pt * cross l.p0 l.p1 pt := by
  rw [DistanceFromPoint_eq]
  by_cases hn : sqrt ((l.p1.Y - l.p0.Y) ^ 2 + (l.p1.X - l.p0.X) ^ 2) = 0
  · have hS := (sqrt_eq_zero_iff_of_square _ _ hs).1 hn
    have hp := (sum_squares_eq_zero_iff l.p0 l.p1).1 hS
    rw [if_pos hn, hS, hp]
    simp [cross]
  · rw [if_neg hn]
    have habs : |cross l.p0 l.p1 pt| * |cross l.p0 l.p1 pt|
        = cross l.p0 l.p1 pt * cross l.p0 l.p1 pt := abs_mul_abs_self _
    rw [← habs]
    nth_rewrite 3 [← hs]
    field_simp

theorem cross_sq_le {K : Type} [LinearOrderedField K] (p0 p1 pt q : Pt K)
    (hq : OnLine p0 p1 q) :
    cross p0 p1 pt * cross p0 p1 pt ≤
      ((pt.X - q.X) ^ 2 + (pt.Y - q.Y) ^ 2) * ((p1.Y - p0.Y) ^ 2 + (p1.X - p0.X) ^ 2) := by
  obtain ⟨t, hx, hy⟩ := hq
  have hid : ((pt.X - q.X) ^ 2 + (pt.Y - q.Y) ^ 2) * ((p1.Y - p0.Y) ^ 2 + (p1.X - p0.X) ^ 2)
      - cross p0 p1 pt * cross p0 p1 pt
      = ((p1.X - p0.X) * (pt.X - q.X) + (p1.Y - p0.Y) * (pt.Y - q.Y)) ^ 2 := by
    rw [hx, hy]
    unfold cross
    ring
  have hnn := sq_nonneg ((p1.X - p0.X) * (pt.X - q.X) + (p1.Y - p0.Y) * (pt.Y - q.Y))
  rw [← hid] at hnn
  linarith

/-- C17: with `math.Sqrt` returning the non-negative root of the squared
length of `p1 - p0`, `DistanceFromPoint(pt)` is 0 when `p0 = p1`, and
otherwise the absolute value of the cross product of `p1 - p0` with `pt - p0`
divided by that root. It is never negative; for `p0` and `p1` different it is
0 exactly when `pt` lies on the line through them; and it is the
perpendicular distance: no point of the line is nearer to `pt`, and one point
of the line is at exactly that distance. -/
theorem DistanceFromPoint_contract {K : Type} [LinearOrderedField K] (sqrt : K → K)
    (l : Line K) (pt : Pt K)
    (hs0 : 0 ≤ sqrt ((l.p1.Y - l.p0.Y) ^ 2 + (l.p1.X - l.p0.X) ^ 2))
    (hs : sqrt ((l.p1.Y - l.p0.Y) ^ 2 + (l.p1.X - l.p0.X) ^ 2)
        * sqrt ((l.p1.Y - l.p0.Y) ^ 2 + (l.p1.X - l.p0.X) ^ 2)
      = (l.p1.Y - l.p0.Y) ^ 2 + (l.p1.X - l.p0.X) ^ 2) :
    (l.p0 = l.p1 → l.DistanceFromPoint sqrt pt = 0)
    ∧ (l.p0 ≠ l.p1 →
        l.DistanceFromPoint sqrt pt =
          |cross l.p0 l.p1 pt| / sqrt ((l.p1.Y - l.p0.Y) ^ 2 + (l.p1.X - l.p0.X) ^ 2))
    ∧ 0 ≤ l.DistanceFromPoint sqrt pt
    ∧ (l.p0 ≠ l.p1 → (l.DistanceFromPoint sqrt pt = 0 ↔ OnLine l.p0 l.p1 pt))
    ∧ (∀ q : Pt K, OnLine l.p0 l.p1 q →
        l.DistanceFromPoint sqrt pt * l.DistanceFromPoint sqrt pt ≤
          (pt.X - q.X) ^ 2 + (pt.Y - q.Y) ^ 2)
    ∧ (l.p0 ≠ l.p1 → ∃ q : Pt K, OnLine l.p0 l.p1 q ∧
        (pt.X - q.X) ^ 2 + (pt.Y - q.Y) ^ 2 =
          l.DistanceFromPoint sqrt pt * l.DistanceFromPoint sqrt pt) := by
  have hzero : sqrt ((l.p1.Y - l.p0.Y) ^ 2 + (l.p1.X - l.p0.X) ^ 2) = 0 ↔ l.p0 = l.p1 :=
    (sqrt_eq_zero_iff_of_square _ _ hs).trans (sum_squares_eq_zero_iff l.p0 l.p1)
  have hsq := DistanceFromPoint_sq sqrt l pt hs
  have hnonneg : 0 ≤ l.DistanceFromPoint sqrt pt := by
    rw [DistanceFromPoint_eq]
    split
    · exact le_refl 0
    · exact div_nonneg (abs_nonneg _) hs0
  have hSpos : l.p0 ≠ l.p1 → 0 < (l.p1.Y - l.p0.Y) ^ 2 + (l.p1.X - l.p0.X) ^ 2 := by
    intro hne
    have h1 : (l.p1.Y - l.p0.Y) ^ 2 + (l.p1.X - l.p0.X) ^ 2 ≠ 0 :=
      fun h => hne ((sum_squares_eq_zero_iff l.p0 l.p1).1 h)
    have h2 : 0 ≤ (l.p1.Y - l.p0.Y) ^ 2 + (l.p1.X - l.p0.X) ^ 2 := by positivity
    exact lt_of_le_of_ne h2 (Ne.symm h1)
  refine ⟨?_, ?_, hnonneg, ?_, ?_, ?_⟩
  · intro h
    rw [DistanceFromPoint_eq, if_pos (hzero.2 h)]
  · intro h
    rw [DistanceFromPoint_eq, if_neg (fun hn => h (hzero.1 hn))]
  · intro h
    rw [← cross_eq_zero_iff l.p0 l.p1 pt h]
    constructor
    · intro hd
      rw [hd] at hsq
      simp only [zero_mul] at hsq
      exact mul_self_eq_zero.1 hsq.symm
    · intro hc
      rw [hc] at hsq
      simp only [mul_zero] at hsq
      rcases mul_eq_zero.1 hsq with h1 | h1
      · exact mul_self_eq_zero.1 h1
      · exact absurd h1 (ne_of_gt (hSpos h))
  · intro q hq
    by_cases hne : l.p0 = l.p1
    · rw [DistanceFromPoint_eq, if_pos (hzero.2 hne)]
      simp only [mul_zero]
      positivity
    · have hle := cross_sq_le l.p0 l.p1 pt q hq
      rw [← hsq] at hle
      exact le_of_mul_le_mul_right hle (hSpos hne)
  · intro hne
    have hS := hSpos hne
    have hS0 := ne_of_gt hS
    refine ⟨⟨l.p0.X + (((l.p1.X - l.p0.X) * (pt.X - l.p0.X)
              + (l.p1.Y - l.p0.Y) * (pt.Y - l.p0.Y))
            / ((l.p1.Y - l.p0.Y) ^ 2 + (l.p1.X - l.p0.X) ^ 2)) * (l.p1.X - l.p0.X),
        l.p0.Y + (((l.p1.X - l.p0.X) * (pt.X - l.p0.X)
              + (l.p1.Y - l.p0.Y) * (pt.Y - l.p0.Y))
            / ((l.p1.Y - l.p0.Y) ^ 2 + (l.p1.X - l.p0.X) ^ 2)) * (l.p1.Y - l.p0.Y)⟩,
      ⟨_, rfl, rfl⟩, ?_⟩
    apply mul_right_cancel₀ hS0
    rw [hsq]
    simp only
    unfold cross
    field_simp
    ring

theorem rat_sqrt_sixteen :
    Rat.sqrt (((NewLine (0 : ℚ) 0 4 0).p1.Y - (NewLine (0 : ℚ) 0 4 0).p0.Y) ^ 2
      + ((NewLine (0 : ℚ) 0 4 0).p1.X - (NewLine (0 : ℚ) 0 4 0).p0.X) ^ 2) = 4 := by
  have h : ((NewLine (0 : ℚ) 0 4 0).p1.Y - (NewLine (0 : ℚ) 0 4 0).p0.Y) ^ 2
      + ((NewLine (0 : ℚ) 0 4 0).p1.X - (NewLine (0 : ℚ) 0 4 0).p0.X) ^ 2 = 4 * 4 := by
    norm_num [NewLine]
  rw [h, Rat.sqrt_eq]
  norm_num

/-- The square root of the reals returns the non-negative root of the squared
length of `p1 - p0`, for every line with real coordinates. -/
theorem real_sqrt_is_root (l : Line ℝ) :
    0 ≤ Real.sqrt ((l.p1.Y - l.p0.Y) ^ 2 + (l.p1.X - l.p0.X) ^ 2)
    ∧ Real.sqrt ((l.p1.Y - l.p0.Y) ^ 2 + (l.p1.X - l.p0.X) ^ 2)
        * Real.sqrt ((l.p1.Y - l.p0.Y) ^ 2 + (l.p1.X - l.p0.X) ^ 2)
      = (l.p1.Y - l.p0.Y) ^ 2 + (l.p1.X - l.p0.X) ^ 2 :=
  ⟨Real.sqrt_nonneg _, Real.mul_self_sqrt (by positivity)⟩

/-- C17, at the sample input of the spec: for the line (0,0)-(4,0) and the
point (2,3), with the square root of the rationals, the distance is 3. -/
theorem DistanceFromPoint_contract_witness :
    (NewLine (0 : ℚ) 0 4 0).DistanceFromPoint Rat.sqrt ⟨2, 3⟩ = 3
    ∧ 0 ≤ (NewLine (0 : ℚ) 0 4 0).DistanceFromPoint Rat.sqrt ⟨2, 3⟩ := by
  have h4 := rat_sqrt_sixteen
  have hthm := DistanceFromPoint_contract Rat.sqrt (NewLine (0 : ℚ) 0 4 0) ⟨2, 3⟩
    (by rw [h4]; norm_num) (by rw [h4]; norm_num [NewLine])
  refine ⟨?_, hthm.2.2.1⟩
  rw [hthm.2.1 (by simp [NewLine]), h4]
  norm_num [cross, NewLine]

/-! ## The extent of the wire layer -/

theorem setDefaultMaxZoom_with_extent (env : Env) (l : Layer) (x : Option Int) :
    ({ l with extent := x } : Layer).setDefaultMaxZoom env =
      { l.setDefaultMaxZoom env with extent := x } := by
  unfold Layer.setDefaultMaxZoom
  split <;> rfl

theorem vtileLayerLoop_with_extent (env : Env) (ctx : Context) (kmap : List String)
    (vmap : List GoValue) (tile : Tile) (x : Option Int) (fs : List Feature) (i : Nat)
    (st : LoopState) :
    vtileLayerLoop env ctx kmap vmap tile i fs { st with l := { st.l with extent := x } } =
      ({ (vtileLayerLoop env ctx kmap vmap tile i fs st).1 with
          l := { (vtileLayerLoop env ctx kmap vmap tile i fs st).1.l with extent := x } },
        (vtileLayerLoop env ctx kmap vmap tile i fs st).2) := by
  induction fs generalizing i st with
  | nil => simp [vtileLayerLoop_nil]
  | cons f rest ih =>
    have hflag : simplifyFlag env ({ st with l := { st.l with extent := x } } : LoopState).l tile
        = simplifyFlag env st.l tile := rfl
    cases hc : ctx.Err i with
    | some err =>
      rw [vtileLayerLoop_cancelled _ _ _ _ _ _ _ _ _ err hc,
        vtileLayerLoop_cancelled _ _ _ _ _ _ _ _ _ err hc]
    | none =>
      cases he : (env.VTileFeature f ctx i kmap vmap tile (simplifyFlag env st.l tile)).2 with
      | some err =>
        rw [vtileLayerLoop_encoder_error _ _ _ _ _ _ _ _ _ err hc he,
          vtileLayerLoop_encoder_error _ _ _ _ _ _ _ _ _ err hc (by rw [hflag]; exact he)]
        simp only [setDefaultMaxZoom_with_extent, hflag]
      | none =>
        rw [vtileLayerLoop_encoder_ok _ _ _ _ _ _ _ _ _ hc he,
          vtileLayerLoop_encoder_ok _ _ _ _ _ _ _ _ _ hc (by rw [hflag]; exact he)]
        simp only [setDefaultMaxZoom_with_extent, hflag]
        exact ih (i + 1)
          ⟨st.l.setDefaultMaxZoom env,
            st.features ++
              (env.VTileFeature f ctx i kmap vmap tile (simplifyFlag env st.l tile)).1.toList,
            st.calls ++ [⟨i, f, simplifyFlag env st.l tile⟩]⟩

theorem VTileLayer_with_extent (l : Layer) (env : Env) (ctx : Context) (tile : Tile)
    (x : Option Int) :
    ({ l with extent := x } : Layer).VTileLayer env ctx tile =
      { l.VTileLayer env ctx tile with
          l := { (l.VTileLayer env ctx tile).l with extent := x } } := by
  rcases hkv : env.keyvalMapsFromFeatures l.features with ⟨kmap, vmap, e⟩
  have hkv2 : env.keyvalMapsFromFeatures ({ l with extent := x } : Layer).features
      = (kmap, vmap, e) := hkv
  cases e with
  | some err =>
    rw [VTileLayer_of_keyval_error l env ctx tile kmap vmap err hkv,
      VTileLayer_of_keyval_error _ env ctx tile kmap vmap err hkv2]
  | none =>
    have hsim := vtileLayerLoop_with_extent env ctx kmap vmap tile x l.features 0 ⟨l, [], []⟩
    rcases hr : vtileLayerLoop env ctx kmap vmap tile 0 l.features ⟨l, [], []⟩ with ⟨st, e⟩
    rw [hr] at hsim
    cases e with
    | some err =>
      rw [VTileLayer_of_loop_error l env ctx tile kmap vmap st err hkv hr,
        VTileLayer_of_loop_error _ env ctx tile kmap vmap _ err hkv2 hsim]
    | none =>
      rw [VTileLayer_of_loop_ok l env ctx tile kmap vmap st hkv hr,
        VTileLayer_of_loop_ok _ env ctx tile kmap vmap _ hkv2 hsim]

theorem VTileLayer_vtl_extent (l : Layer) (env : Env) (ctx : Context) (tile : Tile)
    (out : Tile_Layer) (h : (l.VTileLayer env ctx tile).vtl = some out) :
    out.Extent = some (uint32 tile.Extent) := by
  rcases hkv : env.keyvalMapsFromFeatures l.features with ⟨kmap, vmap, e⟩
  cases e with
  | some err =>
    rw [VTileLayer_of_keyval_error l env ctx tile kmap vmap err hkv] at h
    exact Option.noConfusion h
  | none =>
    rcases hr : vtileLayerLoop env ctx kmap vmap tile 0 l.features ⟨l, [], []⟩ with ⟨st, e⟩
    cases e with
    | some err =>
      rw [VTileLayer_of_loop_error l env ctx tile kmap vmap st err hkv hr] at h
      exact Option.noConfusion h
    | none =>
      rw [VTileLayer_of_loop_ok l env ctx tile kmap vmap st hkv hr] at h
      simp only [Option.some.injEq] at h
      rw [← h]

/-- C20: when `VTileLayer` succeeds, the `Extent` of the layer it returns is
`uint32(tile.Extent)`, the extent of the tile reduced modulo `2^32`. The
extent of the `Layer` plays no part: with any other extent, set or unset, the
layer gives the same results, and every successful call for the same tile,
on whatever layer, returns the same `Extent`. -/
theorem VTileLayer_output_extent (l : Layer) (env : Env) (ctx : Context) (tile : Tile)
    (hok : (l.VTileLayer env ctx tile).err = none) :
    ∃ out, (l.VTileLayer env ctx tile).vtl = some out
      ∧ out.Extent = some (uint32 tile.Extent)
      ∧ uint32 tile.Extent = (tile.Extent % 2 ^ 32).toNat
      ∧ (∀ x : Option Int,
          (({ l with extent := x } : Layer).VTileLayer env ctx tile).vtl = some out
          ∧ (({ l with extent := x } : Layer).VTileLayer env ctx tile).err = none)
      ∧ (∀ e : Int, ((l.SetExtent e).VTileLayer env ctx tile).vtl = some out)
      ∧ (∀ (l2 : Layer) (env2 : Env) (ctx2 : Context) (out2 : Tile_Layer),
          (l2.VTileLayer env2 ctx2 tile).vtl = some out2 → out2.Extent = out.Extent) := by
  have h := (VTileLayer_ok_layer l env ctx tile hok).1
  refine ⟨_, h, rfl, rfl, ?_, ?_, ?_⟩
  · intro x
    rw [VTileLayer_with_extent]
    exact ⟨h, hok⟩
  · intro e
    have := VTileLayer_with_extent l env ctx tile (some e)
    unfold Layer.SetExtent
    rw [this]
    exact h
  · intro l2 env2 ctx2 out2 h2
    exact VTileLayer_vtl_extent l2 env2 ctx2 tile out2 h2

/-- C20, at a sample input: the sample layer, with its extent unset or set to
512, gives a wire layer of extent 4096, the extent of the sample tile. -/
theorem VTileLayer_output_extent_witness :
    ((sampleLayer.VTileLayer sampleEnv background sampleTile).vtl.map Tile_Layer.Extent)
      = some (some 4096)
    ∧ (((sampleLayer.SetExtent 512).VTileLayer sampleEnv background sampleTile).vtl.map
        Tile_Layer.Extent) = some (some 4096)
    ∧ ∃ out, (sampleLayer.VTileLayer sampleEnv background sampleTile).vtl = some out
      ∧ out.Extent = some (uint32 sampleTile.Extent)
      ∧ uint32 sampleTile.Extent = (sampleTile.Extent % 2 ^ 32).toNat
      ∧ (∀ x : Option Int,
          (({ sampleLayer with extent := x } : Layer).VTileLayer sampleEnv background
            sampleTile).vtl = some out
          ∧ (({ sampleLayer with extent := x } : Layer).VTileLayer sampleEnv background
            sampleTile).err = none)
      ∧ (∀ e : Int,
          ((sampleLayer.SetExtent e).VTileLayer sampleEnv background sampleTile).vtl = some out)
      ∧ (∀ (l2 : Layer) (env2 : Env) (ctx2 : Context) (out2 : Tile_Layer),
          (l2.VTileLayer env2 ctx2 sampleTile).vtl = some out2 → out2.Extent = out.Extent) :=
  ⟨by decide, by decide,
    VTileLayer_output_extent sampleLayer sampleEnv background sampleTile rfl⟩

end Tegola
